import Mathlib

/-!
Verification of the pyrate sequential ray-tracing core
(`core/optical_element.py`) and of the glass-catalog dispersion
dispatch (`core/glasscatalog.py`).

The Python code is shallowly embedded: the external collaborators
(Material, Surface, local coordinate frames, the numpy floating-point
primitives) are taken as parameters, and the control and bookkeeping
logic of the repository is translated function by function.  Machine
floats are modelled by an abstract field (instantiated at `ℚ` for
concrete witnesses).
-/

set_option maxHeartbeats 1000000
set_option maxRecDepth 4000
set_option autoImplicit false

namespace Pyrate

open Matrix

/-- A ray path: the ordered history of ray bundles of one traced path
(`ray.RayPath`, an external module of the repository; modelled from the
spec §3: created from one initial bundle and grown by appending). -/
structure RayPath (B : Type) where
  raybundles : List B
deriving DecidableEq, Repr

/-- `RayPath.appendRayBundle` (external `ray` module; modelled from the
spec §3: "grown by appending bundles"). -/
def RayPath.appendRayBundle {B : Type} (rp : RayPath B) (rb : B) : RayPath B :=
  ⟨rp.raybundles ++ [rb]⟩

/-- The three dictionaries an `OpticalElement` holds
(`self.__surfaces`, `self.__materials`, `self.__surf_mat_connection`);
a Python dict is modelled as a partial map, `d[k]` as a lookup that
fails on a missing key and `d.get(k, default)` as `(lookup k).getD default`. -/
structure ElementMaps (S M : Type) where
  surfaces : String → Option S
  materials : String → Option M
  surf_mat_connection : String → Option (String × String)

/-- The external Material contract consumed by `seqtrace` (spec §6):
`propagate` mutates the trailing bundle in place (modelled as returning
the updated bundle), `refract`/`reflect` return an ordered list of
outgoing bundles; the final `Bool` is the `splitup` flag. -/
structure MaterialOps (B S M : Type) where
  propagate : M → B → S → B
  refract : M → B → S → Bool → List B
  reflect : M → B → S → Bool → List B

/-- `OpticalElement.findoutWhichMaterial` (optical_element.py:93-110).
Python's reference comparison `id(mat1) == id(current_mat)` is modelled
as decidable equality on the material-handle type `M`: distinct objects
are distinct handles, aliased references are equal handles. -/
def findoutWhichMaterial {M : Type} [DecidableEq M] (mat1 mat2 current_mat : M) : M :=
  if mat1 = current_mat then mat2 else mat1

/-- The per-path propagation of the `seqtrace` loop
(optical_element.py:329-331): `current_material.propagate` mutates the
path's trailing bundle in place; `rp.raybundles[-1]` on an empty path
raises `IndexError`, modelled by `none`. -/
def propagatePath {B : Type} (prop : B → B) (rp : RayPath B) : Option (RayPath B) :=
  rp.raybundles.getLast?.map (fun b => ⟨rp.raybundles.dropLast ++ [prop b]⟩)

/-- The per-path branching of the `seqtrace` loop
(optical_element.py:342-350 and 357-365): `interact` is the
`refract`/`reflect` call on the trailing bundle; every bundle after the
first extends a deep copy of the (not yet extended) path, then the
first bundle extends the path itself.  `raybundles[0]` on an empty
return list raises `IndexError`, modelled by `none`. -/
def splitPath {B : Type} (interact : B → List B) (rp : RayPath B) :
    Option (RayPath B × List (RayPath B)) :=
  rp.raybundles.getLast?.bind (fun current_bundle =>
    match interact current_bundle with
    | [] => none
    | b0 :: rest => some (rp.appendRayBundle b0, rest.map (fun rb => rp.appendRayBundle rb)))

/-- One iteration of the `seqtrace` surface loop
(optical_element.py:314-367).  The state is the current-material cursor
together with the list of live ray paths; the result paths are the
continued paths (`rpaths`, each extended in place by the first returned
bundle) followed by the new branches (`rpaths_new`, accumulated in path
order), exactly as `rpaths = rpaths + rpaths_new`. -/
def seqtraceStep {B S M O : Type} [DecidableEq M]
    (el : ElementMaps S M) (ops : MaterialOps B S M) (is_mirror : O → Bool)
    (background_medium : M) (splitup : Bool)
    (state : M × List (RayPath B)) (entry : String × O) :
    Option (M × List (RayPath B)) :=
  (el.surfaces entry.1).bind (fun current_surface =>
    (el.surf_mat_connection entry.1).bind (fun mats =>
      let refract_flag := ! is_mirror entry.2
      let mnmat := (el.materials mats.1).getD background_medium
      let pnmat := (el.materials mats.2).getD background_medium
      (state.2.mapM (propagatePath (fun b => ops.propagate state.1 b current_surface))).bind
        (fun rpaths =>
          if refract_flag then
            let current_material := findoutWhichMaterial mnmat pnmat state.1
            (rpaths.mapM (splitPath
                (fun b => ops.refract current_material b current_surface splitup))).bind
              (fun res =>
                some (current_material, res.map Prod.fst ++ (res.map Prod.snd).flatten))
          else
            (rpaths.mapM (splitPath
                (fun b => ops.reflect state.1 b current_surface splitup))).bind
              (fun res =>
                some (state.1, res.map Prod.fst ++ (res.map Prod.snd).flatten)))))

/-- `OpticalElement.seqtrace` (optical_element.py:302-369): folds the
surface loop over the sequence starting from the background medium and
the single initial path, and returns the list of ray paths (the
current-material cursor is internal state and is dropped, as in the
source where it is a local variable). -/
def seqtrace {B S M O : Type} [DecidableEq M]
    (el : ElementMaps S M) (ops : MaterialOps B S M) (is_mirror : O → Bool)
    (raybundle : B) (sequence : List (String × O)) (background_medium : M)
    (splitup : Bool) : Option (List (RayPath B)) :=
  (sequence.foldlM (seqtraceStep el ops is_mirror background_medium splitup)
      (background_medium, [⟨[raybundle]⟩])).map Prod.snd

/-- Modelled from the spec (§4.2, steps 3-4): the current-material
cursor recursion — updated exactly once per non-mirror entry by the
`findoutWhichMaterial` selection on the entry's two adjacent materials
(missing material keys defaulting to the background medium), left
unchanged at a mirror entry.  It depends only on the element maps and
the sequence, never on any ray path, bundle or splitting behaviour. -/
def materialCursor {S M O : Type} [DecidableEq M] (el : ElementMaps S M)
    (is_mirror : O → Bool) (background_medium : M) :
    M → List (String × O) → Option M
  | m, [] => some m
  | m, e :: rest =>
      (el.surf_mat_connection e.1).bind (fun mats =>
        materialCursor el is_mirror background_medium
          (if is_mirror e.2 then m
           else findoutWhichMaterial
             ((el.materials mats.1).getD background_medium)
             ((el.materials mats.2).getD background_medium) m) rest)

/-- Concrete element used by the witnesses: every key resolves, the
materials dict is empty (everything defaults to the background). -/
def elW : ElementMaps Unit ℕ :=
  ⟨fun _ => some (), fun _ => none, fun _ => some ("m", "p")⟩

/-- Concrete material operations used by the C1 witness: `refract`
always returns exactly one bundle. -/
def opsW : MaterialOps ℕ Unit ℕ :=
  ⟨fun _ b _ => b + 10, fun _ b _ _ => [b + 1], fun _ b _ _ => [b]⟩

/-- Concrete material operations used by the C2 witness: `refract`
with `splitup=true` returns two bundles (a branching surface). -/
def opsW2 : MaterialOps ℕ Unit ℕ :=
  ⟨fun _ b _ => b + 10, fun _ b _ _ => [b + 1, b + 2], fun _ b _ _ => [b]⟩

/-- The loop of `OpticalElement.sequence_to_hitlist`
(optical_element.py:126-133): walks the consecutive-pair list,
maintaining the per-(start,end) occurrence counter `hitlist_dict`
(`dict.get(key, 0)` is the total function with default `0`), appending
`(start, end, count+1)` to the hitlist and keying the two option
values under the full triple.  Since triples are pairwise distinct
(`hitlistLoop_nodup`), the order in which the options dictionary is
updated is irrelevant. -/
def hitlistLoop {O : Type} :
    ((String × String) → ℕ) → List ((String × O) × (String × O)) →
      (List (String × String × ℕ) × ((String × String × ℕ) → Option (O × O)))
  | _, [] => ([], fun _ => none)
  | dict, (pb, pe) :: rest =>
      let hit := dict (pb.1, pe.1) + 1
      let r := hitlistLoop (Function.update dict (pb.1, pe.1) hit) rest
      ((pb.1, pe.1, hit) :: r.1,
        Function.update r.2 (pb.1, pe.1, hit) (some (pb.2, pe.2)))

/-- `OpticalElement.sequence_to_hitlist` (optical_element.py:112-135):
`zip(surfnames[:-1], surfnames[1:])` is `seq.zip seq.tail` (both pair
entry `i` with entry `i+1` for `i < L-1`). -/
def sequence_to_hitlist {O : Type} (seq : List (String × O)) :
    List (String × String × ℕ) × ((String × String × ℕ) → Option (O × O)) :=
  hitlistLoop (fun _ => 0) (seq.zip seq.tail)

/-- `np.linalg.inv` modelled over an exact field: the nonsingular
inverse `det⁻¹ • adjugate` when the determinant is nonzero, a junk
value `0` on a singular input (where numpy raises `LinAlgError`). -/
def matInv {K : Type} [Field K] [DecidableEq K] {r : ℕ}
    (A : Matrix (Fin r) (Fin r) K) : Matrix (Fin r) (Fin r) K :=
  if A.det = 0 then 0 else A.det⁻¹ • A.adjugate

/-- `bestfit_transfer` (optical_element.py:179-206), `use6x6=False`
path.  `np.einsum('ij, kj', X, Y)[i,k] = Σ_j X[i,j]·Y[k,j]` is the
non-conjugating product `X * Yᵀ` and `.T` the plain transpose, so
`XX = (X Xᵀ)ᵀ`, `YX = (X Yᵀ)ᵀ`, and the fit is `YX · XX⁻¹`.  The
`use6x6=False` branch only emits a diagnostic warning (no effect on
the returned matrix), so warnings are modelled only in the 6-row
variant below, where they accompany a change of value. -/
def bestfit_transfer {K : Type} [Field K] [DecidableEq K] {r p : ℕ}
    (X Y : Matrix (Fin r) (Fin p) K) : Matrix (Fin r) (Fin r) K :=
  ((X * Yᵀ)ᵀ) * matInv ((X * Xᵀ)ᵀ)

/-- `X[4:, :]` for a 6-row reduced-state matrix: the direction-
imaginary sub-block (rows 4-5). -/
def lowerRows {K : Type} {p : ℕ} (m : Matrix (Fin 6) (Fin p) K) :
    Matrix (Fin 2) (Fin p) K :=
  fun i j => m ⟨4 + i.val, by omega⟩ j

/-- `X[2:4, :]` for a 6-row reduced-state matrix: the direction-real
sub-block (rows 2-3).  Not read by `bestfit_transfer`; used to state
the C6 claim. -/
def dirRealRows {K : Type} {p : ℕ} (m : Matrix (Fin 6) (Fin p) K) :
    Matrix (Fin 2) (Fin p) K :=
  fun i j => m ⟨2 + i.val, by omega⟩ j

/-- Squared Frobenius norm.  `np.linalg.norm m < tol` on floats is
modelled as `frobSq m < tol²` (both sides are nonnegative, so the
comparisons agree); the squared tolerance is the external parameter
(`numerical_tolerance` lives in `globalconstants`, outside src/). -/
def frobSq {K : Type} [CommRing K] {a b : ℕ} (m : Matrix (Fin a) (Fin b) K) : K :=
  ∑ i, ∑ j, (m i j) ^ 2

/-- `M[4:, 4:] = np.eye(2)`: replace the rows-4-5 × cols-4-5 sub-block
of a 6×6 matrix by the 2×2 identity, leaving all other entries. -/
def patchLowerIdentity {K : Type} [Zero K] [One K]
    (m : Matrix (Fin 6) (Fin 6) K) : Matrix (Fin 6) (Fin 6) K :=
  fun i j => if 4 ≤ i.val ∧ 4 ≤ j.val then (if i = j then 1 else 0) else m i j

/-- `bestfit_transfer` (optical_element.py:179-206), `use6x6=True`
path: when the direction-imaginary sub-block (`X[4:, :]` or
`Y[4:, :]`) is near zero, both normal matrices get their lower-right
2×2 block replaced by the identity before inversion and a warning is
emitted (the returned `Bool`); the fit is computed either way. -/
def bestfit_transfer6 {K : Type} [LinearOrderedField K] {p : ℕ}
    (tolSq : K) (X Y : Matrix (Fin 6) (Fin p) K) :
    Matrix (Fin 6) (Fin 6) K × Bool :=
  let XX := (X * Xᵀ)ᵀ
  let YX := (X * Yᵀ)ᵀ
  let nearZero : Bool :=
    decide (frobSq (lowerRows X) < tolSq) || decide (frobSq (lowerRows Y) < tolSq)
  ((if nearZero then patchLowerIdentity YX else YX) *
      matInv (if nearZero then patchLowerIdentity XX else XX),
    nearZero)

/-- Counterexample input for the C6 claim: a 6×1 reduced-state matrix
whose direction-real rows (2-3) are exactly zero but whose direction-
imaginary rows (4-5) are large. -/
def XceC6 : Matrix (Fin 6) (Fin 1) ℚ :=
  fun i _ => if i.val ≤ 1 then 1 else if i.val ≤ 3 then 0 else 10

/-- The four reduced-state matrices of one hit interval
(optical_element.py:269-278: `startmatrix`, `fspropmatrix`,
`endmatrix_lcstart`, `endmatrix`), computed from the two pilot ray
bundles bracketing the hit via the external local-coordinate
transforms and the `reduce_matrix_*` helpers; the frame mathematics is
an external collaborator (spec §2, §6), so the reduced stage matrices
enter the embedding as data, one record per hit interval. -/
structure PilotStage (K : Type) (r p : ℕ) where
  startmatrix : Matrix (Fin r) (Fin p) K
  fspropmatrix : Matrix (Fin r) (Fin p) K
  endmatrix_lcstart : Matrix (Fin r) (Fin p) K
  endmatrix : Matrix (Fin r) (Fin p) K

/-- The composed forward transfer of one hit
(optical_element.py:281-288): the refraction, propagation and
coordinate-transform fits composed as
`np.dot(coordinatetrafomatrix, np.dot(propagatematrix, refractmatrix))`. -/
def hitTransfer {K : Type} [Field K] [DecidableEq K] {r p : ℕ}
    (st : PilotStage K r p) : Matrix (Fin r) (Fin r) K :=
  let refractmatrix := bestfit_transfer st.startmatrix st.fspropmatrix
  let propagatematrix := bestfit_transfer st.fspropmatrix st.endmatrix_lcstart
  let coordinatetrafomatrix := bestfit_transfer st.endmatrix_lcstart st.endmatrix
  coordinatetrafomatrix * (propagatematrix * refractmatrix)

/-- The `XYUVmatrices` Python dict: assignment is function update,
lookup of a missing key is `none`. -/
abbrev XYUVTable (K : Type) (r : ℕ) : Type :=
  (String × String × ℕ) → Option (Matrix (Fin r) (Fin r) K)

/-- The reversed table key: `(s2, s1, numhit)` for `(s1, s2, numhit)`. -/
def revKey (t : String × String × ℕ) : String × String × ℕ :=
  (t.2.1, t.1, t.2.2)

/-- The `calculateXYUV` accumulation loop (optical_element.py:220-296):
for the `i`-th hitlist triple `(s1, s2, numhit)` the composed forward
transfer is stored under `(s1, s2, numhit)` and its matrix inverse
under `(s2, s1, numhit)`; later assignments overwrite earlier ones, as
in a Python dict. -/
def calculateXYUV_loop {K : Type} [Field K] [DecidableEq K] {r p : ℕ}
    (stages : ℕ → PilotStage K r p) :
    ℕ → List (String × String × ℕ) → XYUVTable K r → XYUVTable K r
  | _, [], tbl => tbl
  | i, t :: rest, tbl =>
      calculateXYUV_loop stages (i + 1) rest
        (Function.update
          (Function.update tbl (t.1, t.2.1, t.2.2) (some (hitTransfer (stages i))))
          (t.2.1, t.1, t.2.2) (some (matInv (hitTransfer (stages i)))))

/-- `OpticalElement.calculateXYUV` (optical_element.py:148-299),
reduced to its transfer-table construction: the hitlist is derived from
the sequence by `sequence_to_hitlist`, the per-hit reduced pilot
matrices (external pilot trace and frame data) are supplied by
`stages`, and pilot-bundle pair `i` goes with hitlist entry `i`
(`zip(startpilotbundle, endpilotbundle, hitlist)`). -/
def calculateXYUV {K : Type} [Field K] [DecidableEq K] {r p : ℕ} {O : Type}
    (seq : List (String × O)) (stages : ℕ → PilotStage K r p) : XYUVTable K r :=
  calculateXYUV_loop stages 0 (sequence_to_hitlist seq).1 (fun _ => none)

/-- Constant 1×1 rational matrix, used by concrete table inputs. -/
def mConst (c : ℚ) : Matrix (Fin 1) (Fin 1) ℚ :=
  fun _ _ => c

/-- Counterexample sequence for the C7 claim: surface A, then B, then A
again, so the hitlist contains both `("A","B",1)` and `("B","A",1)`. -/
def seqCE : List (String × ℕ) :=
  [("A", 0), ("B", 0), ("A", 0)]

/-- Counterexample stage data for the C7 claim: hit 0 fits compose to
the 1×1 matrix `8`, every later hit to the identity. -/
def stagesCE : ℕ → PilotStage ℚ 1 1 :=
  fun i => if i = 0 then ⟨mConst 1, mConst 2, mConst 4, mConst 8⟩
    else ⟨mConst 1, mConst 1, mConst 1, mConst 1⟩

/-- Concrete 1×1 identity over `ℚ`, used by witnesses. -/
def mId1 : Matrix (Fin 1) (Fin 1) ℚ := 1

/-- Concrete 6×6 identity over `ℚ`, used by witnesses. -/
def mId6 : Matrix (Fin 6) (Fin 6) ℚ := 1

/-- Concrete 6×1 zero matrix over `ℚ`, used by witnesses. -/
def mZero61 : Matrix (Fin 6) (Fin 1) ℚ := 0

/-- `l[start::step]` (numpy slicing with a stride, glasscatalog.py). -/
def sliceStep {K : Type} (l : List K) (start step : ℕ) : List K :=
  (l.drop start).enum.filterMap
    (fun p => if p.1 % step = 0 then some p.2 else none)

/-- `Except` success test (the dispersion claim needs only "did this
evaluation raise"). -/
def isOkExcept {K : Type} : Except String K → Bool
  | .ok _ => true
  | .error _ => false

/-- `glasscatalog.IndexFormulaContainer`'s attributes.  `n_function` is
absent (`none`) until some branch of `set_n_function` assigns it —
reading it then raises `AttributeError`.  `n_fucntion` [sic] is the
misspelled attribute created by the `"formula  8"` branch
(glasscatalog.py:230). -/
structure IndexFormulaContainer (K : Type) where
  n_coeff : List K
  n_function : Option (K → Except String K)
  n_fucntion : Option (K → Except String K)
  k_coeff : List K
  k_function : Option (K → Except String K)

/-- `IndexFormulaContainer.set_n_function` (glasscatalog.py:155-232).
The floating-point primitives `sqrt` (np.sqrt) and `rpow` (`**` with a
non-integer exponent) and the tabulated interpolator
(`scipy.interpolate.interp1d`) are external parameters.  The formula
closures read `self.n_coeff`, which is assigned first (line 156) and
never reassigned afterwards in the claims' scenarios, so they are
modelled as closing over the passed coefficients; numpy elementwise
products of the sliced coefficient arrays are modelled as zips, and an
out-of-range coefficient read (an IndexError in numpy) as a default
`0`, neither of which any claim touches. -/
def set_n_function {K : Type} [Field K] (sqrt : K → K) (rpow : K → K → K)
    (interp : List K → K → K) (self : IndexFormulaContainer K)
    (n_typ : String) (n_coeff : List K) : IndexFormulaContainer K :=
  let self := { self with n_coeff := n_coeff }
  let c : ℕ → K := fun i => (n_coeff.get? i).getD 0
  let Sellmeier : K → Except String K := fun w_um =>
    .ok (sqrt (1 + c 0 + (((sliceStep n_coeff 1 2).zip (sliceStep n_coeff 2 2)).map
      (fun bc => bc.1 * w_um ^ 2 / (w_um ^ 2 - bc.2 ^ 2))).sum))
  let Sellmeier2 : K → Except String K := fun w_um =>
    .ok (sqrt (1 + c 0 + (((sliceStep n_coeff 1 2).zip (sliceStep n_coeff 2 2)).map
      (fun bc => bc.1 * w_um ^ 2 / (w_um ^ 2 - bc.2))).sum))
  let Polynomial : K → Except String K := fun w_um =>
    .ok (sqrt (c 0 + (((sliceStep n_coeff 1 2).zip (sliceStep n_coeff 2 2)).map
      (fun ap => ap.1 * rpow w_um ap.2)).sum))
  let formula_with_9_or_less_coefficients : K → Except String K := fun w_um =>
    .ok (sqrt (c 0 + ((((sliceStep n_coeff 1 4).zip (sliceStep n_coeff 2 4)).zip
        ((sliceStep n_coeff 3 4).zip (sliceStep n_coeff 4 4))).map
      (fun q => q.1.1 * rpow w_um q.1.2 / (w_um ^ 2 - rpow q.2.1 q.2.2))).sum))
  let formula_with_11_or_more_coefficients : K → Except String K := fun w_um =>
    .ok (sqrt (c 0 + ((([c 1, c 5].zip [c 2, c 6]).zip
        ([c 3, c 7].zip [c 4, c 8])).map
      (fun q => q.1.1 * rpow w_um q.1.2 / (w_um ^ 2 - rpow q.2.1 q.2.2))).sum
      + (((sliceStep n_coeff 9 2).zip (sliceStep n_coeff 10 2)).map
        (fun ef => ef.1 * rpow w_um ef.2)).sum))
  let Cauchy : K → Except String K := fun w_um =>
    .ok (c 0 + (((sliceStep n_coeff 1 2).zip (sliceStep n_coeff 2 2)).map
      (fun ap => ap.1 * rpow w_um ap.2)).sum)
  let Gases : K → Except String K := fun w_um =>
    .ok (1 + c 0 + (((sliceStep n_coeff 1 2).zip (sliceStep n_coeff 2 2)).map
      (fun bc => bc.1 / (bc.2 - w_um ^ (-2 : ℤ)))).sum)
  let Herzberger : K → Except String K := fun w_um =>
    .ok (c 0 + c 1 / (w_um ^ 2 - 28 / 1000) + c 2 / ((w_um ^ 2 - 28 / 1000) ^ 2)
      + ((n_coeff.drop 3).enum.map
        (fun ia => ia.2 * w_um ^ (2 * ia.1 + 2))).sum)
  let Retro : K → Except String K := fun _ =>
    .error ("NotImplementedError")
  let Exotic : K → Except String K := fun _ =>
    .error ("NotImplementedError")
  if n_typ = "tabulated n" then
    { self with n_function := some (fun w_um => .ok (interp n_coeff w_um)) }
  else if n_typ = "formula  1" then { self with n_function := some Sellmeier }
  else if n_typ = "formula  2" then { self with n_function := some Sellmeier2 }
  else if n_typ = "formula  3" then { self with n_function := some Polynomial }
  else if n_typ = "formula  4" then
    if 10 < n_coeff.length
    then { self with n_function := some formula_with_11_or_more_coefficients }
    else { self with n_function := some formula_with_9_or_less_coefficients }
  else if n_typ = "formula  5" then { self with n_function := some Cauchy }
  else if n_typ = "formula  6" then { self with n_function := some Gases }
  else if n_typ = "formula  7" then { self with n_function := some Herzberger }
  else if n_typ = "formula  8" then { self with n_fucntion := some Retro }
  else if n_typ = "formula  9" then { self with n_function := some Exotic }
  else self

/-- `IndexFormulaContainer.set_k_function` (glasscatalog.py:234-243). -/
def set_k_function {K : Type} [Field K] (interp : List K → K → K)
    (self : IndexFormulaContainer K) (k_typ : String) (k_coeff : List K) :
    IndexFormulaContainer K :=
  let self := { self with k_coeff := k_coeff }
  if k_typ = "tabulated k" then
    { self with k_function := some (fun w_um => .ok (interp k_coeff w_um)) }
  else
    { self with k_function := some (fun _ => .ok 0) }

/-- `IndexFormulaContainer.__init__` (glasscatalog.py:131-153): a fresh
object (no `n_function`/`n_fucntion`/`k_function` attribute yet), then
`set_n_function`, then `set_k_function`. -/
def mkIndexFormulaContainer {K : Type} [Field K] (sqrt : K → K)
    (rpow : K → K → K) (interp : List K → K → K)
    (n_typ : String) (n_coeff : List K) (k_typ : String) (k_coeff : List K) :
    IndexFormulaContainer K :=
  set_k_function interp
    (set_n_function sqrt rpow interp ⟨[], none, none, [], none⟩ n_typ n_coeff)
    k_typ k_coeff

/-- `IndexFormulaContainer.get_n` (glasscatalog.py:245-252): evaluates
`self.n_function(w_um = 0.001 * wavelength)`; if no branch of
`set_n_function` ever assigned `n_function`, the attribute read raises
`AttributeError`. -/
def get_n {K : Type} [Field K] (self : IndexFormulaContainer K)
    (wavelength : K) : Except String K :=
  match self.n_function with
  | none => .error ("AttributeError: n_function")
  | some f => f (1 / 1000 * wavelength)

/-- Modelled from the spec (§3): the Ray Bundle state read and written
by the differential propagator — the per-step histories of the 3×N
position and direction matrices and the validity masks recorded at
each `append`.  Complex entries are (re, im) pairs; the propagator only
adds, subtracts and real-scales them, and pair addition is exactly
complex addition.  The `RayBundle` constructor and `append` live in the
external `ray` module (not under src/): the constructor records the
initial trajectory point and `append` extends the histories. -/
structure RayBundle (K : Type) (N : ℕ) where
  x : List (Matrix (Fin 3) (Fin N) (K × K))
  k : List (Matrix (Fin 3) (Fin N) (K × K))
  valid : List (Fin N → Bool)

/-- The external per-hit frame and pilot data consumed by one
`para_seqtrace` loop iteration (optical_element.py:379-397): the start
surface's global-to-local transforms and the end surface's
local-to-global transforms (Frame contract, spec §6), plus the pilot
ray's local 3×1 coordinates at the interval start (`px0`, `pk0`, start
frame) and end (`px1`, `pk1`, end frame), which the source computes
from the pilot ray path via those same external transforms. -/
structure HitFrameData (K : Type) (N : ℕ) where
  g2lP_start : Matrix (Fin 3) (Fin N) (K × K) → Matrix (Fin 3) (Fin N) (K × K)
  g2lD_start : Matrix (Fin 3) (Fin N) (K × K) → Matrix (Fin 3) (Fin N) (K × K)
  l2gP_end : Matrix (Fin 3) (Fin N) (K × K) → Matrix (Fin 3) (Fin N) (K × K)
  l2gD_end : Matrix (Fin 3) (Fin N) (K × K) → Matrix (Fin 3) (Fin N) (K × K)
  px0 : Matrix (Fin 3) (Fin 1) (K × K)
  pk0 : Matrix (Fin 3) (Fin 1) (K × K)
  px1 : Matrix (Fin 3) (Fin 1) (K × K)
  pk1 : Matrix (Fin 3) (Fin 1) (K × K)

/-- `(m - p)[0:2]` with numpy column broadcasting: subtract the pilot
column from every column, keep the two transverse rows. -/
def transverseDiff {K : Type} [Field K] {N : ℕ}
    (m : Matrix (Fin 3) (Fin N) (K × K)) (p : Matrix (Fin 3) (Fin 1) (K × K)) :
    Matrix (Fin 2) (Fin N) (K × K) :=
  fun i j => m ⟨i.val, by omega⟩ j - p ⟨i.val, by omega⟩ 0

/-- `DX0 = np.vstack((dx0, dk0_real, dk0_imag))`
(optical_element.py:400-404, 6-row mode): the real rows embed as
complex values with zero imaginary part, as in the numpy dtype
promotion of the stack. -/
def stackDiff6 {K : Type} [Field K] {N : ℕ}
    (dx0 dk0 : Matrix (Fin 2) (Fin N) (K × K)) :
    Matrix (Fin 6) (Fin N) (K × K) :=
  fun i j =>
    if h2 : i.val < 2 then dx0 ⟨i.val, h2⟩ j
    else if h4 : i.val < 4 then ((dk0 ⟨i.val - 2, by omega⟩ j).1, 0)
    else ((dk0 ⟨i.val - 4, by omega⟩ j).2, 0)

/-- `DX1 = np.dot(matrices[surfhit], DX0)`: the stored 6×6 transfer is
real-valued (the 6-row fits are built from real sub-blocks), so each
complex entry of the state is scaled by a real coefficient. -/
def mulRealComplex {K : Type} [Field K] {N : ℕ}
    (mtx : Matrix (Fin 6) (Fin 6) K) (V : Matrix (Fin 6) (Fin N) (K × K)) :
    Matrix (Fin 6) (Fin N) (K × K) :=
  fun i j => ∑ l, (mtx i l * (V l j).1, mtx i l * (V l j).2)

/-- `dk1 = DX1[2:4] + complex(0, 1) * DX1[4:6]`
(optical_element.py:415): complex recombination
`(a+bi) + i(c+di) = (a-d) + (b+c)i`. -/
def recombine6 {K : Type} [Field K] {N : ℕ}
    (DX1 : Matrix (Fin 6) (Fin N) (K × K)) : Matrix (Fin 2) (Fin N) (K × K) :=
  fun i j =>
    ((DX1 ⟨2 + i.val, by omega⟩ j).1 - (DX1 ⟨4 + i.val, by omega⟩ j).2,
     (DX1 ⟨2 + i.val, by omega⟩ j).2 + (DX1 ⟨4 + i.val, by omega⟩ j).1)

/-- `np.vstack((m, np.zeros(num_pts, dtype=complex)))`
(optical_element.py:421-422): re-embed a 2×N transverse block into 3D
with the longitudinal (third) row exactly zero. -/
def padRow3 {K : Type} [Field K] {N : ℕ}
    (m : Matrix (Fin 2) (Fin N) (K × K)) : Matrix (Fin 3) (Fin N) (K × K) :=
  fun i j => if h : i.val < 2 then m ⟨i.val, h⟩ j else 0

/-- `m + p` with numpy column broadcasting (`dx1 + px1`). -/
def addCol {K : Type} [Field K] {N : ℕ}
    (m : Matrix (Fin 3) (Fin N) (K × K)) (p : Matrix (Fin 3) (Fin 1) (K × K)) :
    Matrix (Fin 3) (Fin N) (K × K) :=
  fun i j => m i j + p i 0

/-- One iteration body of the `para_seqtrace` loop
(optical_element.py:385-435), 6-row mode: build the new bundle from the
current trailing global state, form the local transverse differences
against the pilot, push them through the interval's transfer matrix,
recombine, zero-pad the longitudinal components, add the pilot's end
coordinates back, return to global frame, and append with an all-true
mask (`np.ones(num_pts, dtype=bool)`; the aperture check
`surf_end.intersect(newbundle)` is commented out in the source). -/
def para_step {K : Type} [Field K] {N : ℕ} (mtx : Matrix (Fin 6) (Fin 6) K)
    (fd : HitFrameData K N) (x0_glob k0_glob : Matrix (Fin 3) (Fin N) (K × K)) :
    RayBundle K N :=
  let x0 := fd.g2lP_start x0_glob
  let k0 := fd.g2lD_start k0_glob
  let dx0 := transverseDiff x0 fd.px0
  let dk0 := transverseDiff k0 fd.pk0
  let DX1 := mulRealComplex mtx (stackDiff6 dx0 dk0)
  let dx1 : Matrix (Fin 2) (Fin N) (K × K) := fun i j => DX1 ⟨i.val, by omega⟩ j
  let dk1 := recombine6 DX1
  let x1 := fd.l2gP_end (addCol (padRow3 dx1) fd.px1)
  let k1 := fd.l2gD_end (addCol (padRow3 dk1) fd.pk1)
  ⟨[x0_glob, x1], [k0_glob, k1], [fun _ => true]⟩

/-- The `para_seqtrace` accumulation loop (optical_element.py:379-435):
one appended bundle per hitlist entry, reading the trailing state of
the path so far; a missing transfer-table key (Python `KeyError`) or an
empty trajectory history (`[-1]` on an empty sequence) fails. -/
def para_loop {K : Type} [Field K] {N : ℕ} (matrices : XYUVTable K 6)
    (frames : ℕ → HitFrameData K N) :
    ℕ → List (String × String × ℕ) → List (RayBundle K N) →
      Option (List (RayBundle K N))
  | _, [], rpath => some rpath
  | i, surfhit :: rest, rpath =>
      rpath.getLast?.bind (fun lastb =>
        lastb.x.getLast?.bind (fun x0_glob =>
          lastb.k.getLast?.bind (fun k0_glob =>
            (matrices surfhit).bind (fun mtx =>
              para_loop matrices frames (i + 1) rest
                (rpath ++ [para_step mtx (frames i) x0_glob k0_glob])))))

/-- `OpticalElement.para_seqtrace` (optical_element.py:372-437), 6-row
mode (`use6x6=True`, the default; the 4-row path differs only in taking
`dk1 = DX1[2:4]` directly and stacking 4 rows — its zero-padding and
all-true mask are the same lines of code): computes the transfer table
via `calculateXYUV` and drives the differential loop over the hitlist,
starting from the ray path holding the input bundle. -/
def para_seqtrace {p N : ℕ} {O : Type} {K : Type} [Field K] [DecidableEq K]
    (seq : List (String × O)) (stages : ℕ → PilotStage K 6 p)
    (frames : ℕ → HitFrameData K N) (raybundle : RayBundle K N) :
    Option (List (RayBundle K N)) :=
  para_loop (calculateXYUV seq stages) frames 0 (sequence_to_hitlist seq).1
    [raybundle]

/-- Concrete inputs for the C8 witness: a two-surface sequence, identity
pilot stages, identity frames with a zero pilot ray, and a zero input
bundle. -/
def seqW8 : List (String × ℕ) := [("a", 0), ("b", 0)]

/-- Identity 6×6 pilot stages for the C8 witness. -/
def stagesW8 : ℕ → PilotStage ℚ 6 6 :=
  fun _ => ⟨1, 1, 1, 1⟩

/-- Identity frames and zero pilot coordinates for the C8 witness. -/
def framesW8 : ℕ → HitFrameData ℚ 1 :=
  fun _ => ⟨id, id, id, id, 0, 0, 0, 0⟩

/-- Zero single-ray input bundle for the C8 witness. -/
def rbW8 : RayBundle ℚ 1 := ⟨[0], [0], []⟩

section SeqtraceLemmas

variable {B S M O : Type} [DecidableEq M]

/-- If `f` is pointwise `some (g a)` on `l`, the monadic map succeeds
and equals the plain map. -/
lemma mapM_option_eq_map {α β : Type} (f : α → Option β) (g : α → β) :
    ∀ l : List α, (∀ a ∈ l, f a = some (g a)) → l.mapM f = some (l.map g)
  | [], _ => rfl
  | a :: l, h => by
      have ha := h a (List.mem_cons_self a l)
      have hl := mapM_option_eq_map f g l (fun x hx => h x (List.mem_cons_of_mem a hx))
      rw [List.mapM_cons, ha, hl]
      rfl

lemma propagatePath_concat (prop : B → B) (front : List B) (lastb : B) :
    propagatePath prop ⟨front ++ [lastb]⟩ = some ⟨front ++ [prop lastb]⟩ := by
  simp [propagatePath]

lemma splitPath_concat (interact : B → List B) (front : List B) (lastb : B)
    (b0 : B) (rest : List B) (h : interact lastb = b0 :: rest) :
    splitPath interact ⟨front ++ [lastb]⟩ =
      some (⟨(front ++ [lastb]) ++ [b0]⟩,
            rest.map (fun rb => ⟨(front ++ [lastb]) ++ [rb]⟩)) := by
  simp [splitPath, h, RayPath.appendRayBundle]

/-- One non-mirror step on a single live path whose `refract` returns a
single bundle keeps a single path and appends exactly one bundle. -/
lemma seqtraceStep_single (el : ElementMaps S M) (ops : MaterialOps B S M)
    (is_mirror : O → Bool) (bg : M) (k : String) (o : O) (srf : S)
    (mats : String × String)
    (hs : el.surfaces k = some srf) (hc : el.surf_mat_connection k = some mats)
    (hm : is_mirror o = false)
    (hr : ∀ m b s, (ops.refract m b s false).length = 1)
    (m : M) (front : List B) (lastb : B) :
    ∃ m2 bs2, seqtraceStep el ops is_mirror bg false (m, [⟨front ++ [lastb]⟩]) (k, o)
        = some (m2, [⟨bs2⟩]) ∧ bs2.length = (front ++ [lastb]).length + 1 := by
  set m2 := findoutWhichMaterial ((el.materials mats.1).getD bg)
      ((el.materials mats.2).getD bg) m with hm2
  obtain ⟨b1, hb1⟩ := List.length_eq_one.mp (hr m2 (ops.propagate m lastb srf) srf)
  have hprop : ([(⟨front ++ [lastb]⟩ : RayPath B)]).mapM
      (propagatePath (fun b => ops.propagate m b srf)) =
      some [⟨front ++ [ops.propagate m lastb srf]⟩] := by
    have h := mapM_option_eq_map (propagatePath (fun b => ops.propagate m b srf))
      (fun _ => (⟨front ++ [ops.propagate m lastb srf]⟩ : RayPath B))
      [(⟨front ++ [lastb]⟩ : RayPath B)]
      (by
        intro a ha
        rw [List.mem_singleton] at ha
        subst ha
        exact propagatePath_concat _ front lastb)
    simpa using h
  have hsplitM : ([(⟨front ++ [ops.propagate m lastb srf]⟩ : RayPath B)]).mapM
      (splitPath (fun b => ops.refract m2 b srf false)) =
      some [((⟨(front ++ [ops.propagate m lastb srf]) ++ [b1]⟩ : RayPath B), [])] := by
    have h := mapM_option_eq_map (splitPath (fun b => ops.refract m2 b srf false))
      (fun _ => ((⟨(front ++ [ops.propagate m lastb srf]) ++ [b1]⟩ : RayPath B),
        ([] : List (RayPath B))))
      [(⟨front ++ [ops.propagate m lastb srf]⟩ : RayPath B)]
      (by
        intro a ha
        rw [List.mem_singleton] at ha
        subst ha
        have h2 := splitPath_concat (fun b => ops.refract m2 b srf false) front
          (ops.propagate m lastb srf) b1 [] hb1
        simpa using h2)
    simpa using h
  refine ⟨m2, (front ++ [ops.propagate m lastb srf]) ++ [b1], ?_, by simp⟩
  simp only [seqtraceStep, hs, hc, hm, Option.some_bind]
  simp only [Bool.not_false, if_true]
  simp only [hprop, Option.some_bind, ← hm2, hsplitM]
  simp

/-- Folding the non-mirror, single-return step over any suffix of the
sequence keeps a single path and appends one bundle per entry. -/
lemma seqtrace_fold_single (el : ElementMaps S M) (ops : MaterialOps B S M)
    (is_mirror : O → Bool) (bg : M)
    (hr : ∀ m b s, (ops.refract m b s false).length = 1) :
    ∀ (seq : List (String × O)),
      (∀ e ∈ seq, (el.surfaces e.1).isSome = true ∧
        (el.surf_mat_connection e.1).isSome = true) →
      (∀ e ∈ seq, is_mirror e.2 = false) →
      ∀ (m : M) (bs : List B), bs ≠ [] →
      ∃ m2 bs2, seq.foldlM (seqtraceStep el ops is_mirror bg false) (m, [⟨bs⟩])
          = some (m2, [⟨bs2⟩]) ∧ bs2.length = bs.length + seq.length
  | [], _, _, m, bs, _ => ⟨m, bs, rfl, by simp⟩
  | e :: seq, hkeys, hmir, m, bs, hbs => by
      obtain ⟨srf, hs⟩ := Option.isSome_iff_exists.mp (hkeys e (List.mem_cons_self e seq)).1
      obtain ⟨mats, hc⟩ := Option.isSome_iff_exists.mp (hkeys e (List.mem_cons_self e seq)).2
      have hm := hmir e (List.mem_cons_self e seq)
      have hbsplit : bs.dropLast ++ [bs.getLast hbs] = bs := List.dropLast_append_getLast hbs
      obtain ⟨m2, bs2, hstep, hlen⟩ := seqtraceStep_single el ops is_mirror bg e.1 e.2 srf mats
        hs hc hm hr m bs.dropLast (bs.getLast hbs)
      rw [hbsplit] at hstep hlen
      obtain ⟨m3, bs3, hfold, hlen3⟩ := seqtrace_fold_single el ops is_mirror bg hr seq
        (fun x hx => hkeys x (List.mem_cons_of_mem e hx))
        (fun x hx => hmir x (List.mem_cons_of_mem e hx)) m2 bs2
        (by intro hnil; rw [hnil] at hlen; simp at hlen)
      refine ⟨m3, bs3, ?_, ?_⟩
      · rw [List.foldlM_cons, hstep]
        exact hfold
      · rw [hlen3, hlen]
        simp [List.length_cons]
        omega

/-- If `f` is pointwise `some (g a)` on the `mk`-image of `l`, the
monadic map over the image succeeds and equals the plain map of `g`. -/
lemma mapM_option_eq_map_map {α γ β : Type} (f : γ → Option β) (mk : α → γ) (g : α → β) :
    ∀ l : List α, (∀ a ∈ l, f (mk a) = some (g a)) →
      (l.map mk).mapM f = some (l.map g)
  | [], _ => rfl
  | a :: l, h => by
      have ha := h a (List.mem_cons_self a l)
      have hl := mapM_option_eq_map_map f mk g l (fun x hx => h x (List.mem_cons_of_mem a hx))
      rw [List.map_cons, List.mapM_cons, ha, hl]
      rfl

/-- If `f` succeeds pointwise on `l`, its monadic map succeeds, and
every output comes from some input. -/
lemma mapM_option_exists {α β : Type} (f : α → Option β) :
    ∀ l : List α, (∀ a ∈ l, (f a).isSome = true) →
      ∃ l2, l.mapM f = some l2 ∧ ∀ b ∈ l2, ∃ a ∈ l, f a = some b
  | [], _ => ⟨[], rfl, by simp⟩
  | a :: l, h => by
      obtain ⟨b, hb⟩ := Option.isSome_iff_exists.mp (h a (List.mem_cons_self a l))
      obtain ⟨l2, hl2, hmem⟩ := mapM_option_exists f l
        (fun x hx => h x (List.mem_cons_of_mem a hx))
      refine ⟨b :: l2, ?_, ?_⟩
      · rw [List.mapM_cons, hb, hl2]
        rfl
      · intro y hy
        rcases List.mem_cons.mp hy with hy | hy
        · exact ⟨a, List.mem_cons_self a l, hy ▸ hb⟩
        · obtain ⟨x, hx, hfx⟩ := hmem y hy
          exact ⟨x, List.mem_cons_of_mem a hx, hfx⟩

/-- Full characterization of one `seqtrace` surface-loop iteration on
live paths given as (front history, trailing bundle) pairs: the cursor
becomes `m2` (unchanged at a mirror, the `findoutWhichMaterial` choice
otherwise), every path is propagated with the incoming cursor, every
path's interaction is computed with the single material `m2` at a
refraction and with the unchanged cursor at a mirror, the first
returned bundle continues each path, and each further bundle extends a
copy of the same (not yet continued) history. -/
lemma seqtraceStep_run {B S M O : Type} [DecidableEq M]
    (el : ElementMaps S M) (ops : MaterialOps B S M) (is_mirror : O → Bool)
    (bg : M) (splitup : Bool) (cur : M) (rps : List (List B × B))
    (k : String) (o : O) (srf : S) (mats : String × String)
    (m2 : M) (ints : (List B × B) → List B)
    (hs : el.surfaces k = some srf) (hc : el.surf_mat_connection k = some mats)
    (hm2 : m2 = if is_mirror o then cur
      else findoutWhichMaterial ((el.materials mats.1).getD bg)
        ((el.materials mats.2).getD bg) cur)
    (hints : ∀ p, ints p = (if is_mirror o then ops.reflect else ops.refract) m2
      (ops.propagate cur p.2 srf) srf splitup)
    (hbs : ∀ p ∈ rps, ints p ≠ []) :
    seqtraceStep el ops is_mirror bg splitup
        (cur, rps.map (fun p => ⟨p.1 ++ [p.2]⟩)) (k, o) =
      some (m2,
        rps.map (fun p =>
          (⟨(p.1 ++ [ops.propagate cur p.2 srf]) ++ (ints p).take 1⟩ : RayPath B))
        ++ (rps.map (fun p =>
            (ints p).tail.map
              (fun rb => (⟨(p.1 ++ [ops.propagate cur p.2 srf]) ++ [rb]⟩ : RayPath B)))).flatten) := by
  have hprop : ((rps.map (fun p => (⟨p.1 ++ [p.2]⟩ : RayPath B)))).mapM
      (propagatePath (fun b => ops.propagate cur b srf)) =
      some (rps.map (fun p => ⟨p.1 ++ [ops.propagate cur p.2 srf]⟩)) := by
    refine mapM_option_eq_map_map _ _ _ rps ?_
    intro p _
    exact propagatePath_concat _ p.1 p.2
  cases hmo : is_mirror o with
  | false =>
      simp only [hmo, Bool.false_eq_true, if_false] at hm2 hints
      subst hm2
      have hsplit : ((rps.map
          (fun p => (⟨p.1 ++ [ops.propagate cur p.2 srf]⟩ : RayPath B)))).mapM
          (splitPath (fun b => ops.refract
            (findoutWhichMaterial ((el.materials mats.1).getD bg)
              ((el.materials mats.2).getD bg) cur) b srf splitup)) =
          some (rps.map (fun p =>
            ((⟨(p.1 ++ [ops.propagate cur p.2 srf]) ++ (ints p).take 1⟩ : RayPath B),
              (ints p).tail.map
                (fun rb => (⟨(p.1 ++ [ops.propagate cur p.2 srf]) ++ [rb]⟩ : RayPath B))))) := by
        refine mapM_option_eq_map_map _ _ _ rps ?_
        intro p hp
        rcases hip : ints p with _ | ⟨b0, rest⟩
        · exact absurd hip (hbs p hp)
        · have hcall := (hints p).symm.trans hip
          have h2 := splitPath_concat
            (fun b => ops.refract
              (findoutWhichMaterial ((el.materials mats.1).getD bg)
                ((el.materials mats.2).getD bg) cur) b srf splitup)
            p.1 (ops.propagate cur p.2 srf) b0 rest hcall
          rw [h2]
          simp
      simp only [seqtraceStep, hs, hc, Option.some_bind, hmo, Bool.not_false, if_true]
      rw [hprop]
      simp only [Option.some_bind]
      rw [hsplit]
      simp only [Option.some_bind, Option.some.injEq, Prod.mk.injEq, true_and]
      rw [List.map_map, List.map_map]
      rfl
  | true =>
      simp only [hmo, if_true] at hm2 hints
      subst hm2
      have hsplit : ((rps.map
          (fun p => (⟨p.1 ++ [ops.propagate m2 p.2 srf]⟩ : RayPath B)))).mapM
          (splitPath (fun b => ops.reflect m2 b srf splitup)) =
          some (rps.map (fun p =>
            ((⟨(p.1 ++ [ops.propagate m2 p.2 srf]) ++ (ints p).take 1⟩ : RayPath B),
              (ints p).tail.map
                (fun rb => (⟨(p.1 ++ [ops.propagate m2 p.2 srf]) ++ [rb]⟩ : RayPath B))))) := by
        refine mapM_option_eq_map_map _ _ _ rps ?_
        intro p hp
        rcases hip : ints p with _ | ⟨b0, rest⟩
        · exact absurd hip (hbs p hp)
        · have hcall := (hints p).symm.trans hip
          have h2 := splitPath_concat (fun b => ops.reflect m2 b srf splitup)
            p.1 (ops.propagate m2 p.2 srf) b0 rest hcall
          rw [h2]
          simp
      simp only [seqtraceStep, hs, hc, Option.some_bind, hmo, Bool.not_true, Bool.false_eq_true,
        if_false]
      rw [hprop]
      simp only [Option.some_bind]
      rw [hsplit]
      simp only [Option.some_bind, Option.some.injEq, Prod.mk.injEq, true_and]
      rw [List.map_map, List.map_map]
      rfl

/-- Any path produced by `propagatePath` is nonempty, and the
propagation succeeds on a nonempty path. -/
lemma propagatePath_isSome {B : Type} (prop : B → B) (rp : RayPath B)
    (h : rp.raybundles ≠ []) : ((propagatePath prop rp).isSome = true) ∧
      (∀ rp2, propagatePath prop rp = some rp2 → rp2.raybundles ≠ []) := by
  constructor
  · simp [propagatePath, h]
  · intro rp2 h2
    simp only [propagatePath, Option.map_eq_some'] at h2
    obtain ⟨b, _, hb2⟩ := h2
    rw [← hb2]
    simp

/-- `splitPath` succeeds on a nonempty path whose interaction returns a
nonempty bundle list, and every produced path is nonempty. -/
lemma splitPath_isSome {B : Type} (interact : B → List B) (rp : RayPath B)
    (h : rp.raybundles ≠ []) (hint : ∀ b, interact b ≠ []) :
    ((splitPath interact rp).isSome = true) ∧
      (∀ q, splitPath interact rp = some q →
        q.1.raybundles ≠ [] ∧ ∀ rp2 ∈ q.2, rp2.raybundles ≠ []) := by
  obtain ⟨cb, hcb⟩ := Option.isSome_iff_exists.mp (List.getLast?_isSome.mpr h)
  rcases hi : interact cb with _ | ⟨b0, rest⟩
  · exact absurd hi (hint cb)
  · constructor
    · simp [splitPath, hcb, hi]
    · intro q hq
      simp only [splitPath, hcb, Option.some_bind, hi] at hq
      rw [← Option.some.inj hq]
      constructor
      · simp [RayPath.appendRayBundle]
      · intro rp2 h2
        simp only [List.mem_map] at h2
        obtain ⟨rb, _, hrb⟩ := h2
        rw [← hrb]
        simp [RayPath.appendRayBundle]

/-- One `seqtrace` loop iteration on any list of nonempty live paths
succeeds whenever the entry's keys resolve and the Material contract
returns nonempty bundle lists; the resulting cursor is the unique
per-entry update (unchanged at a mirror, the `findoutWhichMaterial`
selection otherwise) and all resulting paths are nonempty. -/
lemma seqtraceStep_cursor {B S M O : Type} [DecidableEq M]
    (el : ElementMaps S M) (ops : MaterialOps B S M) (is_mirror : O → Bool)
    (bg : M) (splitup : Bool) (cur : M) (paths : List (RayPath B))
    (k : String) (o : O) (srf : S) (mats : String × String)
    (hs : el.surfaces k = some srf) (hc : el.surf_mat_connection k = some mats)
    (hne : ∀ rp ∈ paths, rp.raybundles ≠ [])
    (hr : ∀ m b s u, ops.refract m b s u ≠ [])
    (hf : ∀ m b s u, ops.reflect m b s u ≠ []) :
    ∃ paths2, seqtraceStep el ops is_mirror bg splitup (cur, paths) (k, o) =
        some ((if is_mirror o then cur
          else findoutWhichMaterial ((el.materials mats.1).getD bg)
            ((el.materials mats.2).getD bg) cur), paths2) ∧
      ∀ rp ∈ paths2, rp.raybundles ≠ [] := by
  obtain ⟨paths1, hpaths1, hmem1⟩ := mapM_option_exists
    (propagatePath (fun b => ops.propagate cur b srf)) paths
    (fun rp hrp => (propagatePath_isSome _ rp (hne rp hrp)).1)
  have hne1 : ∀ rp ∈ paths1, rp.raybundles ≠ [] := by
    intro rp hrp
    obtain ⟨a, ha, hfa⟩ := hmem1 rp hrp
    exact (propagatePath_isSome _ a (hne a ha)).2 rp hfa
  cases hmo : is_mirror o with
  | false =>
      obtain ⟨res, hres, hmem2⟩ := mapM_option_exists
        (splitPath (fun b => ops.refract
          (findoutWhichMaterial ((el.materials mats.1).getD bg)
            ((el.materials mats.2).getD bg) cur) b srf splitup)) paths1
        (fun rp hrp => (splitPath_isSome _ rp (hne1 rp hrp) (fun b => hr _ b _ _)).1)
      refine ⟨res.map Prod.fst ++ (res.map Prod.snd).flatten, ?_, ?_⟩
      · simp only [seqtraceStep, hs, hc, Option.some_bind, hmo, Bool.not_false, if_true]
        rw [hpaths1]
        simp only [Option.some_bind]
        rw [hres]
        simp
      · intro rp hrp
        rcases List.mem_append.mp hrp with hrp | hrp
        · obtain ⟨q, hq, hq2⟩ := List.mem_map.mp hrp
          obtain ⟨a, ha, hfa⟩ := hmem2 q hq
          exact hq2 ▸ ((splitPath_isSome _ a (hne1 a ha) (fun b => hr _ b _ _)).2 q hfa).1
        · obtain ⟨l2, hl2, hrpl2⟩ := List.mem_flatten.mp hrp
          obtain ⟨q, hq, hq2⟩ := List.mem_map.mp hl2
          obtain ⟨a, ha, hfa⟩ := hmem2 q hq
          exact ((splitPath_isSome _ a (hne1 a ha) (fun b => hr _ b _ _)).2 q hfa).2 rp (hq2 ▸ hrpl2)
  | true =>
      obtain ⟨res, hres, hmem2⟩ := mapM_option_exists
        (splitPath (fun b => ops.reflect cur b srf splitup)) paths1
        (fun rp hrp => (splitPath_isSome _ rp (hne1 rp hrp) (fun b => hf _ b _ _)).1)
      refine ⟨res.map Prod.fst ++ (res.map Prod.snd).flatten, ?_, ?_⟩
      · simp only [seqtraceStep, hs, hc, Option.some_bind, hmo, Bool.not_true,
          Bool.false_eq_true, if_false]
        rw [hpaths1]
        simp only [Option.some_bind]
        rw [hres]
        simp
      · intro rp hrp
        rcases List.mem_append.mp hrp with hrp | hrp
        · obtain ⟨q, hq, hq2⟩ := List.mem_map.mp hrp
          obtain ⟨a, ha, hfa⟩ := hmem2 q hq
          exact hq2 ▸ ((splitPath_isSome _ a (hne1 a ha) (fun b => hf _ b _ _)).2 q hfa).1
        · obtain ⟨l2, hl2, hrpl2⟩ := List.mem_flatten.mp hrp
          obtain ⟨q, hq, hq2⟩ := List.mem_map.mp hl2
          obtain ⟨a, ha, hfa⟩ := hmem2 q hq
          exact ((splitPath_isSome _ a (hne1 a ha) (fun b => hf _ b _ _)).2 q hfa).2 rp (hq2 ▸ hrpl2)

/-- Whatever the live paths and however the Material behaves, a
successful loop iteration's new cursor is exactly the once-per-entry
update: unchanged at a mirror, the `findoutWhichMaterial` selection
otherwise. -/
lemma seqtraceStep_fst_eq (el : ElementMaps S M) (ops : MaterialOps B S M)
    (is_mirror : O → Bool) (bg : M) (splitup : Bool) (cur : M)
    (paths : List (RayPath B)) (k : String) (o : O) (srf : S)
    (mats : String × String) (m2 : M) (paths2 : List (RayPath B))
    (hs : el.surfaces k = some srf) (hc : el.surf_mat_connection k = some mats)
    (hstep : seqtraceStep el ops is_mirror bg splitup (cur, paths) (k, o)
      = some (m2, paths2)) :
    m2 = if is_mirror o then cur
      else findoutWhichMaterial ((el.materials mats.1).getD bg)
        ((el.materials mats.2).getD bg) cur := by
  simp only [seqtraceStep, hs, hc, Option.some_bind] at hstep
  rcases hp : paths.mapM (propagatePath (fun b => ops.propagate cur b srf)) with _ | rpaths
  · rw [hp] at hstep
    simp at hstep
  rw [hp] at hstep
  simp only [Option.some_bind] at hstep
  cases hmo : is_mirror o with
  | false =>
      simp only [hmo, Bool.not_false, if_true] at hstep
      rcases hq : rpaths.mapM (splitPath (fun b =>
          ops.refract (findoutWhichMaterial ((el.materials mats.1).getD bg)
            ((el.materials mats.2).getD bg) cur) b srf splitup)) with _ | res
      · rw [hq] at hstep
        simp at hstep
      rw [hq] at hstep
      simp only [Option.some_bind, Option.some.injEq, Prod.mk.injEq] at hstep
      simp only [Bool.false_eq_true, if_false]
      exact hstep.1.symm
  | true =>
      simp only [hmo, Bool.not_true, Bool.false_eq_true, if_false] at hstep
      rcases hq : rpaths.mapM (splitPath (fun b =>
          ops.reflect cur b srf splitup)) with _ | res
      · rw [hq] at hstep
        simp at hstep
      rw [hq] at hstep
      simp only [Option.some_bind, Option.some.injEq, Prod.mk.injEq] at hstep
      simp only [if_true]
      exact hstep.1.symm

end SeqtraceLemmas

lemma seqtrace_fold_cursor {B S M O : Type} [DecidableEq M]
    (el : ElementMaps S M) (ops : MaterialOps B S M) (is_mirror : O → Bool)
    (bg : M) (splitup : Bool)
    (hr : ∀ m b s u, ops.refract m b s u ≠ [])
    (hf : ∀ m b s u, ops.reflect m b s u ≠ []) :
    ∀ (seq : List (String × O)), (∀ e ∈ seq, (el.surfaces e.1).isSome = true) →
    ∀ (cur : M) (paths : List (RayPath B)), (∀ rp ∈ paths, rp.raybundles ≠ []) →
    (seq.foldlM (seqtraceStep el ops is_mirror bg splitup) (cur, paths)).map Prod.fst
      = materialCursor el is_mirror bg cur seq
  | [], _, cur, paths, _ => rfl
  | e :: rest, hkeys, cur, paths, hne => by
      obtain ⟨srf, hs⟩ := Option.isSome_iff_exists.mp (hkeys e (List.mem_cons_self e rest))
      rcases hc : el.surf_mat_connection e.1 with _ | mats
      · have hstep : seqtraceStep el ops is_mirror bg splitup (cur, paths) e = none := by
          simp [seqtraceStep, hs, hc]
        rw [List.foldlM_cons]
        have he : (e.1, e.2) = e := rfl
        rw [show seqtraceStep el ops is_mirror bg splitup (cur, paths) e = none from hstep]
        simp [materialCursor, hc]
      · obtain ⟨paths2, hstep, hne2⟩ := seqtraceStep_cursor el ops is_mirror bg splitup cur
          paths e.1 e.2 srf mats hs hc hne hr hf
        rw [List.foldlM_cons]
        have he : (e.1, e.2) = e := rfl
        rw [← he, hstep]
        have ih := seqtrace_fold_cursor el ops is_mirror bg splitup hr hf rest
          (fun x hx => hkeys x (List.mem_cons_of_mem e hx))
          (if is_mirror e.2 then cur
           else findoutWhichMaterial ((el.materials mats.1).getD bg)
             ((el.materials mats.2).getD bg) cur) paths2 hne2
        rw [show ((some ((if is_mirror e.2 then cur
            else findoutWhichMaterial ((el.materials mats.1).getD bg)
              ((el.materials mats.2).getD bg) cur), paths2) : Option (M × List (RayPath B))) >>=
            fun s => rest.foldlM (seqtraceStep el ops is_mirror bg splitup) s) =
            rest.foldlM (seqtraceStep el ops is_mirror bg splitup)
              ((if is_mirror e.2 then cur
                else findoutWhichMaterial ((el.materials mats.1).getD bg)
                  ((el.materials mats.2).getD bg) cur), paths2) from rfl]
        rw [ih]
        simp [materialCursor, hc]

/-- C10: throughout one `seqtrace` run the current-material cursor is a
single per-entry state shared by all live paths: (1) the fold's cursor
component equals the `materialCursor` recursion, which starts at the
background medium and is independent of the traced bundles, the
refract/reflect behaviour, the splitup flag and any branching; (2) at
every successful loop iteration the cursor is updated exactly once —
unchanged at a mirror entry, replaced by the `findoutWhichMaterial`
selection otherwise — whatever the live path list is, so every path of
that iteration sees the same material. -/
theorem seqtrace_shared_material_cursor {B S M O : Type} [DecidableEq M]
    (el : ElementMaps S M) (ops : MaterialOps B S M) (is_mirror : O → Bool)
    (bg : M) (splitup : Bool) (raybundle : B) (seq : List (String × O))
    (hkeys : ∀ e ∈ seq, (el.surfaces e.1).isSome = true)
    (hr : ∀ m b s u, ops.refract m b s u ≠ [])
    (hf : ∀ m b s u, ops.reflect m b s u ≠ []) :
    ((seq.foldlM (seqtraceStep el ops is_mirror bg splitup)
        (bg, [⟨[raybundle]⟩])).map Prod.fst
      = materialCursor el is_mirror bg bg seq) ∧
    (∀ (cur : M) (paths : List (RayPath B)) (k : String) (o : O) (srf : S)
        (mats : String × String) (m2 : M) (paths2 : List (RayPath B)),
      el.surfaces k = some srf → el.surf_mat_connection k = some mats →
      seqtraceStep el ops is_mirror bg splitup (cur, paths) (k, o)
        = some (m2, paths2) →
      m2 = if is_mirror o then cur
        else findoutWhichMaterial ((el.materials mats.1).getD bg)
          ((el.materials mats.2).getD bg) cur) :=
  ⟨seqtrace_fold_cursor el ops is_mirror bg splitup hr hf seq hkeys bg
      [⟨[raybundle]⟩] (by intro rp hrp; rw [List.mem_singleton] at hrp; subst hrp; simp),
   fun cur paths k o srf mats m2 paths2 hs hc hstep =>
     seqtraceStep_fst_eq el ops is_mirror bg splitup cur paths k o srf mats
       m2 paths2 hs hc hstep⟩

/-- C1: for every input bundle, background medium and sequence whose
entries are all non-mirror and resolvable, if every `refract` call with
`splitup=false` returns exactly one bundle (the Material contract),
then `seqtrace` with `splitup=false` returns exactly one ray path
containing exactly `K+1` bundles for a `K`-entry sequence. -/
theorem seqtrace_splitup_false_single_path {B S M O : Type} [DecidableEq M]
    (el : ElementMaps S M) (ops : MaterialOps B S M) (is_mirror : O → Bool)
    (raybundle : B) (seq : List (String × O)) (bg : M)
    (hkeys : ∀ e ∈ seq, (el.surfaces e.1).isSome = true ∧
      (el.surf_mat_connection e.1).isSome = true)
    (hmir : ∀ e ∈ seq, is_mirror e.2 = false)
    (hr : ∀ m b s, (ops.refract m b s false).length = 1) :
    (seqtrace el ops is_mirror raybundle seq bg false).map
        (fun paths => paths.map (fun p => p.raybundles.length)) =
      some [seq.length + 1] := by
  obtain ⟨m2, bs2, hfold, hlen⟩ := seqtrace_fold_single el ops is_mirror bg hr seq hkeys hmir
    bg [raybundle] (by simp)
  simp only [seqtrace, hfold, Option.map_some']
  simp [hlen, Nat.add_comm]

/-- C2: at a sequence entry where the `refract`/`reflect` calls return
lists `ints p` of bundles for the live paths `p`, the first returned
bundle is appended to the existing (propagated) path, each further
bundle is appended to a fresh copy of the same not-yet-extended
history, and the live path count grows by exactly
`(ints p).length - 1` for each previously-live path.  (Deep-copy
independence is value semantics here: each branch owns its own
`raybundles` list value.) -/
theorem seqtrace_branching_step {B S M O : Type} [DecidableEq M]
    (el : ElementMaps S M) (ops : MaterialOps B S M) (is_mirror : O → Bool)
    (bg : M) (splitup : Bool) (cur : M) (rps : List (List B × B))
    (k : String) (o : O) (srf : S) (mats : String × String)
    (m2 : M) (ints : (List B × B) → List B)
    (hs : el.surfaces k = some srf) (hc : el.surf_mat_connection k = some mats)
    (hm2 : m2 = if is_mirror o then cur
      else findoutWhichMaterial ((el.materials mats.1).getD bg)
        ((el.materials mats.2).getD bg) cur)
    (hints : ∀ p, ints p = (if is_mirror o then ops.reflect else ops.refract) m2
      (ops.propagate cur p.2 srf) srf splitup)
    (hbs : ∀ p ∈ rps, ints p ≠ []) :
    seqtraceStep el ops is_mirror bg splitup
        (cur, rps.map (fun p => ⟨p.1 ++ [p.2]⟩)) (k, o) =
      some (m2,
        rps.map (fun p =>
          (⟨(p.1 ++ [ops.propagate cur p.2 srf]) ++ (ints p).take 1⟩ : RayPath B))
        ++ (rps.map (fun p =>
            (ints p).tail.map
              (fun rb => (⟨(p.1 ++ [ops.propagate cur p.2 srf]) ++ [rb]⟩ : RayPath B)))).flatten) ∧
      (rps.map (fun p =>
          (⟨(p.1 ++ [ops.propagate cur p.2 srf]) ++ (ints p).take 1⟩ : RayPath B))
        ++ (rps.map (fun p =>
            (ints p).tail.map
              (fun rb => (⟨(p.1 ++ [ops.propagate cur p.2 srf]) ++ [rb]⟩ : RayPath B)))).flatten).length
        = rps.length + (rps.map (fun p => (ints p).length - 1)).sum := by
  constructor
  · exact seqtraceStep_run el ops is_mirror bg splitup cur rps k o srf mats m2 ints
      hs hc hm2 hints hbs
  · rw [List.length_append, List.length_map, List.length_flatten, List.map_map]
    congr 1
    apply congrArg List.sum
    apply List.map_congr_left
    intro p _
    simp

theorem seqtrace_branching_step_witness :
    seqtraceStep elW opsW2 (fun _ : Unit => false) 7 true
        (7, [(⟨[0]⟩ : Pyrate.RayPath ℕ)]) ("a", ()) =
      some (7, [(⟨[10, 11]⟩ : Pyrate.RayPath ℕ), ⟨[10, 12]⟩]) ∧
      ([(⟨[10, 11]⟩ : Pyrate.RayPath ℕ), ⟨[10, 12]⟩] : List (Pyrate.RayPath ℕ)).length = 1 + 1 := by
  have h := seqtrace_branching_step elW opsW2 (fun _ : Unit => false) 7 true 7
    [([], 0)] "a" () () ("m", "p") 7 (fun p => [p.2 + 11, p.2 + 12])
    rfl rfl (by simp [elW, findoutWhichMaterial, opsW2]) (by intro p; rfl)
    (by intro p _; simp)
  simpa [opsW2] using h

/-- C3: at a non-mirror entry the new current material is selected by
the reference-identity rule of `findoutWhichMaterial`: the second
adjacent material when the first is identical to the current one, the
first otherwise — in particular the first when the current material is
identical to neither (e.g. the background at entry). -/
theorem seqtrace_material_selection {B S M O : Type} [DecidableEq M]
    (el : ElementMaps S M) (ops : MaterialOps B S M) (is_mirror : O → Bool)
    (bg : M) (splitup : Bool) (cur : M) (rps : List (List B × B))
    (k : String) (o : O) (srf : S) (mats : String × String)
    (hs : el.surfaces k = some srf) (hc : el.surf_mat_connection k = some mats)
    (hmo : is_mirror o = false)
    (hbs : ∀ p ∈ rps,
      ops.refract (findoutWhichMaterial ((el.materials mats.1).getD bg)
          ((el.materials mats.2).getD bg) cur)
        (ops.propagate cur p.2 srf) srf splitup ≠ []) :
    (seqtraceStep el ops is_mirror bg splitup
        (cur, rps.map (fun p => ⟨p.1 ++ [p.2]⟩)) (k, o)).map Prod.fst =
      some (if (el.materials mats.1).getD bg = cur
            then (el.materials mats.2).getD bg
            else (el.materials mats.1).getD bg) ∧
      (cur ≠ (el.materials mats.1).getD bg → cur ≠ (el.materials mats.2).getD bg →
        (seqtraceStep el ops is_mirror bg splitup
          (cur, rps.map (fun p => ⟨p.1 ++ [p.2]⟩)) (k, o)).map Prod.fst =
          some ((el.materials mats.1).getD bg)) := by
  have hrun := seqtraceStep_run el ops is_mirror bg splitup cur rps k o srf mats
    (findoutWhichMaterial ((el.materials mats.1).getD bg)
      ((el.materials mats.2).getD bg) cur)
    (fun p => ops.refract (findoutWhichMaterial ((el.materials mats.1).getD bg)
        ((el.materials mats.2).getD bg) cur)
      (ops.propagate cur p.2 srf) srf splitup)
    hs hc (by rw [hmo]; simp) (by intro p; rw [hmo]; simp) hbs
  rw [hrun]
  constructor
  · rfl
  · intro h1 _
    simp only [Option.map_some', Option.some.injEq]
    simp only [findoutWhichMaterial]
    rw [if_neg (Ne.symm h1)]

theorem seqtrace_material_selection_witness :
    (seqtraceStep elW opsW (fun _ : Unit => false) 7 false
        (7, [(⟨[0]⟩ : Pyrate.RayPath ℕ)]) ("a", ())).map Prod.fst = some 7 ∧
      ((7 : ℕ) ≠ 7 → (7 : ℕ) ≠ 7 →
        (seqtraceStep elW opsW (fun _ : Unit => false) 7 false
          (7, [(⟨[0]⟩ : Pyrate.RayPath ℕ)]) ("a", ())).map Prod.fst = some 7) := by
  have h := seqtrace_material_selection elW opsW (fun _ : Unit => false) 7 false 7
    [([], 0)] "a" () () ("m", "p") rfl rfl rfl (by intro p _; simp [opsW])
  simpa [elW] using h

theorem seqtrace_splitup_false_single_path_witness :
    (seqtrace elW opsW (fun _ : Unit => false) 0 [("a", ()), ("b", ())] 7 false).map
        (fun paths => paths.map (fun p => p.raybundles.length)) = some [3] :=
  seqtrace_splitup_false_single_path elW opsW (fun _ => false) 0 [("a", ()), ("b", ())] 7
    (by intro e _; exact ⟨rfl, rfl⟩)
    (by intro e _; rfl)
    (by intro m b s; rfl)

theorem seqtrace_shared_material_cursor_witness :
    ((([("a", ()), ("b", ())].foldlM
        (seqtraceStep elW opsW2 (fun _ : Unit => false) 7 true)
        (7, [(⟨[0]⟩ : RayPath ℕ)])).map Prod.fst
      = materialCursor elW (fun _ : Unit => false) 7 7 [("a", ()), ("b", ())]) ∧
    (∀ (cur : ℕ) (paths : List (RayPath ℕ)) (k : String) (o : Unit) (srf : Unit)
        (mats : String × String) (m2 : ℕ) (paths2 : List (RayPath ℕ)),
      elW.surfaces k = some srf → elW.surf_mat_connection k = some mats →
      seqtraceStep elW opsW2 (fun _ : Unit => false) 7 true (cur, paths) (k, o)
        = some (m2, paths2) →
      m2 = if (fun _ : Unit => false) o then cur
        else findoutWhichMaterial ((elW.materials mats.1).getD 7)
          ((elW.materials mats.2).getD 7) cur)) ∧
    materialCursor elW (fun _ : Unit => false) 7 7 [("a", ()), ("b", ())] = some 7 := by
  refine ⟨?_, rfl⟩
  exact seqtrace_shared_material_cursor elW opsW2 (fun _ => false) 7 true 0
      [("a", ()), ("b", ())] (by intro e _; rfl)
      (by intro m b s u; simp [opsW2]) (by intro m b s u; simp [opsW2])

section HitlistLemmas

variable {O : Type}

lemma hitlistLoop_length :
    ∀ (pairs : List ((String × O) × (String × O))) (dict : (String × String) → ℕ),
      (hitlistLoop dict pairs).1.length = pairs.length
  | [], _ => rfl
  | (pb, pe) :: rest, dict => by
      simp only [hitlistLoop, List.length_cons]
      rw [hitlistLoop_length rest]

/-- The hit indices emitted for one ordered surface-key pair, read in
hitlist order, are the consecutive integers starting right above the
incoming counter value. -/
lemma hitlistLoop_filter (a b : String) :
    ∀ (pairs : List ((String × O) × (String × O))) (dict : (String × String) → ℕ),
      ((hitlistLoop dict pairs).1.filterMap
          (fun t => if t.1 = a ∧ t.2.1 = b then some t.2.2 else none))
        = List.range' (dict (a, b) + 1)
            (pairs.countP (fun q => decide (q.1.1 = a ∧ q.2.1 = b)))
  | [], _ => rfl
  | (pb, pe) :: rest, dict => by
      simp only [hitlistLoop, List.filterMap_cons, List.countP_cons]
      by_cases hab : pb.1 = a ∧ pe.1 = b
      · obtain ⟨ha, hb⟩ := hab
        subst ha
        subst hb
        rw [if_pos ⟨rfl, rfl⟩]
        rw [hitlistLoop_filter pb.1 pe.1 rest]
        rw [Function.update_same]
        simp only [decide_eq_true_eq, and_self, if_true]
        rw [List.range'_succ]
      · rw [if_neg hab]
        rw [hitlistLoop_filter a b rest]
        have hkey : (pb.1, pe.1) ≠ (a, b) := by
          intro hk
          exact hab ⟨congrArg Prod.fst hk, congrArg Prod.snd hk⟩
        rw [Function.update_noteq (Ne.symm hkey)]
        have : (decide (pb.1 = a ∧ pe.1 = b)) = false := by
          simpa using hab
        rw [this]
        simp

/-- Every triple in the produced hitlist carries a hit index strictly
above the incoming counter value for its pair. -/
lemma hitlistLoop_mem_lt :
    ∀ (pairs : List ((String × O) × (String × O))) (dict : (String × String) → ℕ)
      (a b : String) (h : ℕ), (a, b, h) ∈ (hitlistLoop dict pairs).1 → dict (a, b) < h
  | [], _, _, _, _, hmem => by simp [hitlistLoop] at hmem
  | (pb, pe) :: rest, dict, a, b, h, hmem => by
      simp only [hitlistLoop, List.mem_cons] at hmem
      rcases hmem with hmem | hmem
      · have h1 : a = pb.1 ∧ b = pe.1 ∧ h = dict (pb.1, pe.1) + 1 := by
          simpa [Prod.ext_iff] using hmem
        obtain ⟨ha, hb, hh⟩ := h1
        subst ha
        subst hb
        omega
      · have ih := hitlistLoop_mem_lt rest
          (Function.update dict (pb.1, pe.1) (dict (pb.1, pe.1) + 1)) a b h hmem
        by_cases hk : (a, b) = (pb.1, pe.1)
        · rw [hk] at ih ⊢
          rw [Function.update_same] at ih
          omega
        · rw [Function.update_noteq hk] at ih
          exact ih

/-- The hitlist triples are pairwise distinct. -/
lemma hitlistLoop_nodup :
    ∀ (pairs : List ((String × O) × (String × O))) (dict : (String × String) → ℕ),
      (hitlistLoop dict pairs).1.Nodup
  | [], _ => List.nodup_nil
  | (pb, pe) :: rest, dict => by
      simp only [hitlistLoop, List.nodup_cons]
      refine ⟨?_, hitlistLoop_nodup rest _⟩
      intro hmem
      have hlt := hitlistLoop_mem_lt rest
        (Function.update dict (pb.1, pe.1) (dict (pb.1, pe.1) + 1)) pb.1 pe.1
        (dict (pb.1, pe.1) + 1) hmem
      rw [Function.update_same] at hlt
      omega

end HitlistLemmas

/-- C4: for every sequence of length `L ≥ 1`, `sequence_to_hitlist`
returns a hitlist of exactly `L - 1` triples (one per consecutive
pair), and for each ordered surface-key pair `(a, b)` the hit indices
of that pair's triples, read in hitlist order, are exactly
`1, 2, 3, …` (one per occurrence of the pair among the consecutive
pairs). -/
theorem sequence_to_hitlist_spec {O : Type} (seq : List (String × O))
    (hL : 1 ≤ seq.length) (a b : String) :
    (sequence_to_hitlist seq).1.length = seq.length - 1 ∧
    ((sequence_to_hitlist seq).1.filterMap
        (fun t => if t.1 = a ∧ t.2.1 = b then some t.2.2 else none))
      = List.range' 1 ((seq.zip seq.tail).countP
          (fun q => decide (q.1.1 = a ∧ q.2.1 = b))) := by
  constructor
  · rw [sequence_to_hitlist, hitlistLoop_length]
    rw [List.length_zip, List.length_tail]
    omega
  · rw [sequence_to_hitlist, hitlistLoop_filter]

theorem sequence_to_hitlist_spec_witness :
    (1 ≤ ([("a", 0), ("b", 0), ("a", 0), ("b", 0)] : List (String × ℕ)).length) ∧
    ((sequence_to_hitlist ([("a", 0), ("b", 0), ("a", 0), ("b", 0)] :
        List (String × ℕ))).1.length = 3 ∧
      ((sequence_to_hitlist ([("a", 0), ("b", 0), ("a", 0), ("b", 0)] :
          List (String × ℕ))).1.filterMap
          (fun t => if t.1 = "a" ∧ t.2.1 = "b" then some t.2.2 else none))
        = List.range' 1 2) := by
  refine ⟨by decide, ?_⟩
  have h := sequence_to_hitlist_spec
    ([("a", 0), ("b", 0), ("a", 0), ("b", 0)] : List (String × ℕ)) (by decide) "a" "b"
  exact ⟨h.1, h.2.trans (by decide)⟩

section LinearAlgebraLemmas

lemma matInv_cancel {r : ℕ}
    (A : Matrix (Fin r) (Fin r) ℚ) (h : IsUnit A.det) :
    A * matInv A = 1 ∧ matInv A * A = 1 := by
  have hd : A.det ≠ 0 := h.ne_zero
  rw [matInv, if_neg hd]
  constructor
  · rw [Matrix.mul_smul, Matrix.mul_adjugate, smul_smul, inv_mul_cancel₀ hd, one_smul]
  · rw [Matrix.smul_mul, Matrix.adjugate_mul, smul_smul, inv_mul_cancel₀ hd, one_smul]

lemma bestfit_transfer_eq {r p : ℕ}
    (X Y : Matrix (Fin r) (Fin p) ℚ) :
    bestfit_transfer X Y = (Y * Xᵀ) * matInv (X * Xᵀ) := by
  rw [bestfit_transfer, Matrix.transpose_mul, Matrix.transpose_transpose,
    Matrix.transpose_mul, Matrix.transpose_transpose]

end LinearAlgebraLemmas

/-- C5: when the near-zero substitution does not apply and `X Xᵀ` is
invertible, the fitted transfer matrix equals `(Y Xᵀ)(X Xᵀ)⁻¹` with the
plain (non-conjugated) transpose — in the shape-generic 4-row path and
in the 6-row path alike; under the invertibility hypothesis `matInv`
is the two-sided inverse.  (Stated at the model field `ℚ`; the proof,
`bestfit_transfer_eq` and `matInv_cancel`, is field-generic: the
embedding's transpose never conjugates, matching `np.einsum`.) -/
theorem bestfit_transfer_normal_equations {r p q : ℕ}
    (X Y : Matrix (Fin r) (Fin p) ℚ) (tolSq : ℚ) (X6 Y6 : Matrix (Fin 6) (Fin q) ℚ)
    (hinv : IsUnit (X * Xᵀ).det) (hinv6 : IsUnit (X6 * X6ᵀ).det)
    (hnz : ¬ (frobSq (lowerRows X6) < tolSq ∨ frobSq (lowerRows Y6) < tolSq)) :
    (bestfit_transfer X Y = (Y * Xᵀ) * matInv (X * Xᵀ) ∧
      (X * Xᵀ) * matInv (X * Xᵀ) = 1 ∧ matInv (X * Xᵀ) * (X * Xᵀ) = 1) ∧
    ((bestfit_transfer6 tolSq X6 Y6).1 = (Y6 * X6ᵀ) * matInv (X6 * X6ᵀ) ∧
      (bestfit_transfer6 tolSq X6 Y6).2 = false ∧
      (X6 * X6ᵀ) * matInv (X6 * X6ᵀ) = 1 ∧ matInv (X6 * X6ᵀ) * (X6 * X6ᵀ) = 1) := by
  push_neg at hnz
  have hb1 : decide (frobSq (lowerRows X6) < tolSq) = false := by
    simpa using hnz.1
  have hb2 : decide (frobSq (lowerRows Y6) < tolSq) = false := by
    simpa using hnz.2
  refine ⟨⟨bestfit_transfer_eq X Y, (matInv_cancel _ hinv).1, (matInv_cancel _ hinv).2⟩,
    ?_, ?_, (matInv_cancel _ hinv6).1, (matInv_cancel _ hinv6).2⟩
  · show ((if (decide (frobSq (lowerRows X6) < tolSq) ||
        decide (frobSq (lowerRows Y6) < tolSq) : Bool)
          then patchLowerIdentity ((X6 * Y6ᵀ)ᵀ) else ((X6 * Y6ᵀ)ᵀ)) *
        matInv (if (decide (frobSq (lowerRows X6) < tolSq) ||
          decide (frobSq (lowerRows Y6) < tolSq) : Bool)
          then patchLowerIdentity ((X6 * X6ᵀ)ᵀ) else ((X6 * X6ᵀ)ᵀ))) =
      (Y6 * X6ᵀ) * matInv (X6 * X6ᵀ)
    rw [hb1, hb2]
    simp only [Bool.or_false, Bool.false_eq_true, if_false]
    rw [Matrix.transpose_mul, Matrix.transpose_transpose,
      Matrix.transpose_mul, Matrix.transpose_transpose]
  · show (decide (frobSq (lowerRows X6) < tolSq) ||
      decide (frobSq (lowerRows Y6) < tolSq) : Bool) = false
    rw [hb1, hb2]
    rfl

theorem bestfit_transfer_normal_equations_witness :
    (IsUnit (mId1 * mId1ᵀ).det ∧
      ¬ (frobSq (lowerRows mId6) < (0 : ℚ) ∨ frobSq (lowerRows mId6) < (0 : ℚ))) ∧
    ((bestfit_transfer mId1 mId1 = (mId1 * mId1ᵀ) * matInv (mId1 * mId1ᵀ) ∧
      (mId1 * mId1ᵀ) * matInv (mId1 * mId1ᵀ) = 1 ∧
      matInv (mId1 * mId1ᵀ) * (mId1 * mId1ᵀ) = 1) ∧
    ((bestfit_transfer6 (0 : ℚ) mId6 mId6).1 = (mId6 * mId6ᵀ) * matInv (mId6 * mId6ᵀ) ∧
      (bestfit_transfer6 (0 : ℚ) mId6 mId6).2 = false ∧
      (mId6 * mId6ᵀ) * matInv (mId6 * mId6ᵀ) = 1 ∧
      matInv (mId6 * mId6ᵀ) * (mId6 * mId6ᵀ) = 1)) := by
  have h1 : IsUnit (mId1 * mId1ᵀ).det := by
    rw [mId1]
    simp
  have h6 : IsUnit (mId6 * mId6ᵀ).det := by
    rw [mId6]
    simp
  have hpos : 0 ≤ frobSq (lowerRows mId6) := by
    rw [frobSq]
    positivity
  have hnz : ¬ (frobSq (lowerRows mId6) < (0 : ℚ) ∨ frobSq (lowerRows mId6) < (0 : ℚ)) := by
    push_neg
    exact ⟨hpos, hpos⟩
  have happ := bestfit_transfer_normal_equations mId1 mId1 (0 : ℚ) mId6 mId6 h1 h6 hnz
  exact ⟨⟨h1, hnz⟩, happ⟩

/-- C6 (amended): in 6-row mode, whenever the direction-imaginary
sub-block (rows 4-5, `X[4:, :]`/`Y[4:, :]`) of the input or of the
output has (squared) norm below the (squared) tolerance, the rows-4-5 ×
cols-4-5 sub-blocks of both normal matrices `X Xᵀ` and `Y Xᵀ` are
replaced by the 2×2 identity before inversion (all other entries kept),
the warning flag is set, and the computation proceeds and returns the
patched fit instead of aborting.  (The code does not inspect the
direction-real rows 2-3; see the counterexample.  Stated at the model
field `ℚ`; the proof is order-field-generic.) -/
theorem bestfit_transfer6_nearZero {p : ℕ}
    (tolSq : ℚ) (X Y : Matrix (Fin 6) (Fin p) ℚ)
    (h : frobSq (lowerRows X) < tolSq ∨ frobSq (lowerRows Y) < tolSq) :
    (bestfit_transfer6 tolSq X Y).2 = true ∧
    (bestfit_transfer6 tolSq X Y).1 =
      patchLowerIdentity ((X * Yᵀ)ᵀ) * matInv (patchLowerIdentity ((X * Xᵀ)ᵀ)) ∧
    (∀ i j : Fin 6, 4 ≤ i.val → 4 ≤ j.val →
      patchLowerIdentity ((X * Xᵀ)ᵀ) i j = (if i = j then 1 else 0) ∧
      patchLowerIdentity ((X * Yᵀ)ᵀ) i j = (if i = j then 1 else 0)) ∧
    (∀ i j : Fin 6, ¬ (4 ≤ i.val ∧ 4 ≤ j.val) →
      patchLowerIdentity ((X * Xᵀ)ᵀ) i j = ((X * Xᵀ)ᵀ) i j ∧
      patchLowerIdentity ((X * Yᵀ)ᵀ) i j = ((X * Yᵀ)ᵀ) i j) := by
  have hb : (decide (frobSq (lowerRows X) < tolSq) ||
      decide (frobSq (lowerRows Y) < tolSq) : Bool) = true := by
    rcases h with h | h
    · rw [decide_eq_true h]
      rfl
    · rw [decide_eq_true h]
      simp
  refine ⟨?_, ?_, ?_, ?_⟩
  · show (decide (frobSq (lowerRows X) < tolSq) ||
      decide (frobSq (lowerRows Y) < tolSq) : Bool) = true
    exact hb
  · show ((if (decide (frobSq (lowerRows X) < tolSq) ||
        decide (frobSq (lowerRows Y) < tolSq) : Bool)
          then patchLowerIdentity ((X * Yᵀ)ᵀ) else ((X * Yᵀ)ᵀ)) *
        matInv (if (decide (frobSq (lowerRows X) < tolSq) ||
          decide (frobSq (lowerRows Y) < tolSq) : Bool)
          then patchLowerIdentity ((X * Xᵀ)ᵀ) else ((X * Xᵀ)ᵀ))) =
      patchLowerIdentity ((X * Yᵀ)ᵀ) * matInv (patchLowerIdentity ((X * Xᵀ)ᵀ))
    rw [hb]
    simp
  · intro i j hi hj
    constructor <;> · rw [patchLowerIdentity, if_pos ⟨hi, hj⟩]
  · intro i j hij
    constructor <;> · rw [patchLowerIdentity, if_neg hij]

theorem bestfit_transfer6_nearZero_witness :
    (frobSq (lowerRows mZero61) < (1 : ℚ) ∨ frobSq (lowerRows mZero61) < (1 : ℚ)) ∧
    (bestfit_transfer6 (1 : ℚ) mZero61 mZero61).2 = true := by
  have h0 : frobSq (lowerRows mZero61) < (1 : ℚ) := by
    rw [mZero61]
    simp [frobSq, lowerRows]
  exact ⟨Or.inl h0,
    (bestfit_transfer6_nearZero 1 mZero61 mZero61 (Or.inl h0)).1⟩

/-- C6, counterexample to the claim as stated: the direction-real
sub-block (rows 2-3) of this input is exactly zero — below any positive
tolerance — yet no warning is emitted and no substitution happens,
because the code only inspects `X[4:, :]` and `Y[4:, :]` (the
direction-imaginary rows), which are large here. -/
theorem bestfit_transfer6_dirReal_counterexample :
    frobSq (dirRealRows XceC6) < (1 : ℚ) ∧
    (bestfit_transfer6 (1 : ℚ) XceC6 XceC6).2 = false := by
  constructor
  · show (∑ i : Fin 2, ∑ j : Fin 1, (dirRealRows XceC6 i j) ^ 2) < (1 : ℚ)
    rw [Fin.sum_univ_two]
    simp [dirRealRows, XceC6]
  · show (decide (frobSq (lowerRows XceC6) < (1 : ℚ)) ||
      decide (frobSq (lowerRows XceC6) < (1 : ℚ)) : Bool) = false
    have : frobSq (lowerRows XceC6) = 200 := by
      rw [frobSq, Fin.sum_univ_two]
      simp [lowerRows, XceC6]
      norm_num
    rw [this]
    norm_num

section XYUVLemmas

lemma revKey_revKey (t : String × String × ℕ) : revKey (revKey t) = t := rfl

lemma revKey_injective (u t : String × String × ℕ) (h : revKey u = revKey t) : u = t := by
  have := congrArg revKey h
  rw [revKey_revKey, revKey_revKey] at this
  exact this

/-- A key neither written directly nor as a reversed key by any
remaining hit keeps its table entry. -/
lemma calculateXYUV_loop_untouched {r p : ℕ} (stages : ℕ → PilotStage ℚ r p) :
    ∀ (hl : List (String × String × ℕ)) (i : ℕ) (tbl : XYUVTable ℚ r)
      (key : String × String × ℕ),
      (∀ u ∈ hl, u ≠ key ∧ revKey u ≠ key) →
      calculateXYUV_loop stages i hl tbl key = tbl key
  | [], _, _, _, _ => rfl
  | u :: rest, i, tbl, key, h => by
      have hu := h u (List.mem_cons_self u rest)
      rw [calculateXYUV_loop]
      rw [calculateXYUV_loop_untouched stages rest (i + 1) _ key
        (fun v hv => h v (List.mem_cons_of_mem u hv))]
      rw [show ((u.2.1, u.1, u.2.2) : String × String × ℕ) = revKey u from rfl]
      rw [Function.update_noteq (Ne.symm hu.2)]
      rw [show ((u.1, u.2.1, u.2.2) : String × String × ℕ) = u from rfl]
      rw [Function.update_noteq (Ne.symm hu.1)]

/-- After the loop, a triple at position `j` whose reversed triple is
absent from the remaining hitlist maps to its forward transfer, and the
reversed key to the inverse. -/
lemma calculateXYUV_loop_lookup {r p : ℕ} (stages : ℕ → PilotStage ℚ r p) :
    ∀ (hl : List (String × String × ℕ)) (j i : ℕ) (tbl : XYUVTable ℚ r)
      (t : String × String × ℕ),
      hl.get? j = some t → hl.Nodup → revKey t ∉ hl →
      calculateXYUV_loop stages i hl tbl t = some (hitTransfer (stages (i + j))) ∧
      calculateXYUV_loop stages i hl tbl (revKey t) =
        some (matInv (hitTransfer (stages (i + j))))
  | [], j, _, _, _, hj, _, _ => by simp at hj
  | u :: rest, 0, i, tbl, t, hj, hnd, hrev => by
      have hut : u = t := by simpa using hj
      subst hut
      have htmem : u ∈ u :: rest := List.mem_cons_self u rest
      have hrev_ne : revKey u ≠ u := by
        intro h
        apply hrev
        rw [h]
        exact htmem
      have hnotin : u ∉ rest := (List.nodup_cons.mp hnd).1
      have hrevnotin : revKey u ∉ rest :=
        fun h => hrev (List.mem_cons_of_mem u h)
      rw [calculateXYUV_loop]
      constructor
      · rw [calculateXYUV_loop_untouched stages rest (i + 1) _ u (by
          intro v hv
          constructor
          · intro h
            exact hnotin (h ▸ hv)
          · intro h
            have : v = revKey u := by
              rw [← revKey_revKey v, h]
            exact hrevnotin (this ▸ hv))]
        rw [show ((u.2.1, u.1, u.2.2) : String × String × ℕ) = revKey u from rfl]
        rw [Function.update_noteq (Ne.symm hrev_ne)]
        rw [show ((u.1, u.2.1, u.2.2) : String × String × ℕ) = u from rfl]
        rw [Function.update_same]
        rw [Nat.add_zero]
      · rw [calculateXYUV_loop_untouched stages rest (i + 1) _ (revKey u) (by
          intro v hv
          constructor
          · intro h
            exact hrevnotin (h ▸ hv)
          · intro h
            exact hnotin ((revKey_injective v u h) ▸ hv))]
        rw [show ((u.2.1, u.1, u.2.2) : String × String × ℕ) = revKey u from rfl]
        rw [Function.update_same]
        rw [Nat.add_zero]
  | u :: rest, j + 1, i, tbl, t, hj, hnd, hrev => by
      have hj2 : rest.get? j = some t := by simpa using hj
      have ih := calculateXYUV_loop_lookup stages rest j (i + 1)
        (Function.update
          (Function.update tbl (u.1, u.2.1, u.2.2) (some (hitTransfer (stages i))))
          (u.2.1, u.1, u.2.2) (some (matInv (hitTransfer (stages i)))))
        t hj2 (List.nodup_cons.mp hnd).2 (fun h => hrev (List.mem_cons_of_mem u h))
      rw [calculateXYUV_loop]
      rw [show i + 1 + j = i + (j + 1) from by omega] at ih
      exact ih

end XYUVLemmas

/-- C7 (amended): for every hitlist triple `(s1, s2, h)` whose reversed
triple `(s2, s1, h)` does not also occur in the hitlist, the Transfer
Matrix Table maps `(s1, s2, h)` to the composed forward transfer
(end-frame-transform · propagation · refraction fits) of that hit and
`(s2, s1, h)` to its matrix inverse.  (When both orientations occur —
e.g. sequence A, B, A — the later hit's dict writes overwrite the
earlier entries, so the claim fails as stated; see the
counterexample.) -/
theorem calculateXYUV_table_spec {r p : ℕ} {O : Type}
    (seq : List (String × O)) (stages : ℕ → PilotStage ℚ r p)
    (t : String × String × ℕ) (j : ℕ)
    (hj : (sequence_to_hitlist seq).1.get? j = some t)
    (hrev : revKey t ∉ (sequence_to_hitlist seq).1) :
    calculateXYUV seq stages t = some (hitTransfer (stages j)) ∧
    calculateXYUV seq stages (revKey t) = some (matInv (hitTransfer (stages j))) := by
  have h := calculateXYUV_loop_lookup stages (sequence_to_hitlist seq).1 j 0
    (fun _ => none) t hj (hitlistLoop_nodup _ _) hrev
  rw [Nat.zero_add] at h
  exact h

theorem calculateXYUV_table_spec_witness :
    ((sequence_to_hitlist ([("a", 0), ("b", 0)] : List (String × ℕ))).1.get? 0 =
        some ("a", "b", 1) ∧
      revKey ("a", "b", 1) ∉ (sequence_to_hitlist ([("a", 0), ("b", 0)] :
        List (String × ℕ))).1) ∧
    (calculateXYUV [("a", 0), ("b", 0)] stagesCE ("a", "b", 1) =
        some (hitTransfer (stagesCE 0)) ∧
      calculateXYUV [("a", 0), ("b", 0)] stagesCE (revKey ("a", "b", 1)) =
        some (matInv (hitTransfer (stagesCE 0)))) := by
  refine ⟨⟨by decide, by decide⟩, ?_⟩
  exact calculateXYUV_table_spec [("a", 0), ("b", 0)] stagesCE ("a", "b", 1) 0
    (by decide) (by decide)

section XYUVCounterexample

lemma mConst_mul (x y : ℚ) : mConst x * mConst y = mConst (x * y) := by
  ext i j
  simp [mConst, Matrix.mul_apply]

lemma mConst_transpose (x : ℚ) : (mConst x)ᵀ = mConst x := rfl

lemma matInv_mConst (x : ℚ) (hx : x ≠ 0) : matInv (mConst x) = mConst x⁻¹ := by
  rw [matInv, Matrix.det_fin_one]
  rw [show mConst x 0 0 = x from rfl]
  rw [if_neg hx, Matrix.adjugate_fin_one]
  ext i j
  have hij : i = j := Subsingleton.elim i j
  subst hij
  simp [mConst, Matrix.smul_apply, Matrix.one_apply_eq]

lemma bestfit_mConst (a b : ℚ) (ha : a ≠ 0) :
    bestfit_transfer (mConst a) (mConst b) = mConst (b / a) := by
  rw [bestfit_transfer]
  simp only [mConst_transpose, mConst_mul]
  rw [matInv_mConst (a * a) (mul_ne_zero ha ha), mConst_mul]
  have harg : (a * b) * (a * a)⁻¹ = b / a := by
    field_simp
    ring
  rw [harg]

lemma hitTransfer_stagesCE_zero : hitTransfer (stagesCE 0) = mConst 8 := by
  show bestfit_transfer (mConst 4) (mConst 8) *
    (bestfit_transfer (mConst 2) (mConst 4) * bestfit_transfer (mConst 1) (mConst 2)) =
    mConst 8
  rw [bestfit_mConst 4 8 (by norm_num), bestfit_mConst 2 4 (by norm_num),
    bestfit_mConst 1 2 (by norm_num), mConst_mul, mConst_mul]
  norm_num

lemma hitTransfer_stagesCE_one : hitTransfer (stagesCE 1) = mConst 1 := by
  show bestfit_transfer (mConst 1) (mConst 1) *
    (bestfit_transfer (mConst 1) (mConst 1) * bestfit_transfer (mConst 1) (mConst 1)) =
    mConst 1
  rw [bestfit_mConst 1 1 (by norm_num), mConst_mul, mConst_mul]
  norm_num

lemma calculateXYUV_CE_lookup :
    calculateXYUV seqCE stagesCE ("A", "B", 1) =
      some (matInv (hitTransfer (stagesCE 1))) := by
  show calculateXYUV_loop stagesCE 0 (sequence_to_hitlist seqCE).1
    (fun _ => none) ("A", "B", 1) = _
  rw [show (sequence_to_hitlist seqCE).1 =
    [("A", "B", 1), ("B", "A", 1)] from by decide]
  rw [calculateXYUV_loop, calculateXYUV_loop, calculateXYUV_loop]
  rw [show (((("B", "A", 1) : String × String × ℕ).2.1,
      (("B", "A", 1) : String × String × ℕ).1,
      (("B", "A", 1) : String × String × ℕ).2.2) : String × String × ℕ) =
    (("A", "B", 1) : String × String × ℕ) from rfl]
  rw [Function.update_same]

end XYUVCounterexample

/-- C7, counterexample to the claim as stated: for the sequence
A, B, A the hitlist is `[("A","B",1), ("B","A",1)]`; processing the
second hit overwrites the first hit's forward entry with the second
hit's inverse, so the table does not map `("A","B",1)` to that hit's
composed forward transfer (`8` versus the stored `1`). -/
theorem calculateXYUV_reverse_pair_counterexample :
    (sequence_to_hitlist seqCE).1.get? 0 = some ("A", "B", 1) ∧
    calculateXYUV seqCE stagesCE ("A", "B", 1) ≠ some (hitTransfer (stagesCE 0)) := by
  refine ⟨by decide, ?_⟩
  rw [calculateXYUV_CE_lookup, hitTransfer_stagesCE_zero, hitTransfer_stagesCE_one,
    matInv_mConst 1 (by norm_num)]
  intro h
  have h2 := congrFun (congrFun (Option.some.inj h) 0) 0
  rw [show mConst 1⁻¹ 0 0 = 1 from by norm_num [mConst]] at h2
  rw [show mConst 8 0 0 = 8 from rfl] at h2
  norm_num at h2

/-- C9: the two unimplemented dispersion slots fail loudly.  With
`n_typ = "formula  9"` the stored `Exotic` body raises
`NotImplementedError` at every `get_n` call; with
`n_typ = "formula  8"` the branch assigns the misspelled attribute
`n_fucntion`, so `n_function` is never set and `get_n` raises
`AttributeError` — in both cases an explicit error, never a silently
returned numeric value. -/
theorem unimplemented_formulas_fail (sqrt : ℚ → ℚ) (rpow : ℚ → ℚ → ℚ)
    (interp : List ℚ → ℚ → ℚ) (n_coeff k_coeff : List ℚ) (k_typ : String)
    (wavelength : ℚ) :
    isOkExcept (get_n (mkIndexFormulaContainer sqrt rpow interp
      ("formula  8") n_coeff k_typ k_coeff) wavelength) = false ∧
    isOkExcept (get_n (mkIndexFormulaContainer sqrt rpow interp
      ("formula  9") n_coeff k_typ k_coeff) wavelength) = false := by
  constructor
  · rw [mkIndexFormulaContainer, set_n_function]
    simp only [show (("formula  8" : String) = "tabulated n") = False from by simp,
      show (("formula  8" : String) = "formula  1") = False from by simp,
      show (("formula  8" : String) = "formula  2") = False from by simp,
      show (("formula  8" : String) = "formula  3") = False from by simp,
      show (("formula  8" : String) = "formula  4") = False from by simp,
      show (("formula  8" : String) = "formula  5") = False from by simp,
      show (("formula  8" : String) = "formula  6") = False from by simp,
      show (("formula  8" : String) = "formula  7") = False from by simp,
      show (("formula  8" : String) = "formula  8") = True from by simp,
      if_false, if_true]
    rw [set_k_function]
    by_cases hk : k_typ = "tabulated k"
    · rw [if_pos hk]
      rfl
    · rw [if_neg hk]
      rfl
  · rw [mkIndexFormulaContainer, set_n_function]
    simp only [show (("formula  9" : String) = "tabulated n") = False from by simp,
      show (("formula  9" : String) = "formula  1") = False from by simp,
      show (("formula  9" : String) = "formula  2") = False from by simp,
      show (("formula  9" : String) = "formula  3") = False from by simp,
      show (("formula  9" : String) = "formula  4") = False from by simp,
      show (("formula  9" : String) = "formula  5") = False from by simp,
      show (("formula  9" : String) = "formula  6") = False from by simp,
      show (("formula  9" : String) = "formula  7") = False from by simp,
      show (("formula  9" : String) = "formula  8") = False from by simp,
      show (("formula  9" : String) = "formula  9") = True from by simp,
      if_false, if_true]
    rw [set_k_function]
    by_cases hk : k_typ = "tabulated k"
    · rw [if_pos hk]
      rfl
    · rw [if_neg hk]
      rfl

section ParaSeqtraceLemmas

variable {K : Type} [Field K] {N : ℕ}

/-- The differential loop only appends: entries of the incoming path
keep their positions. -/
lemma para_loop_prefix (matrices : XYUVTable K 6) (frames : ℕ → HitFrameData K N) :
    ∀ (hl : List (String × String × ℕ)) (i : ℕ)
      (rpath path : List (RayBundle K N)),
      para_loop matrices frames i hl rpath = some path →
      ∀ idx, idx < rpath.length → path.get? idx = rpath.get? idx
  | [], _, rpath, path, hrun, idx, hidx => by
      rw [← Option.some.inj hrun]
  | surfhit :: rest, i, rpath, path, hrun, idx, hidx => by
      rw [para_loop] at hrun
      rcases hlast : rpath.getLast? with _ | lastb
      · rw [hlast] at hrun
        simp at hrun
      rw [hlast] at hrun
      simp only [Option.some_bind] at hrun
      rcases hx : lastb.x.getLast? with _ | x0_glob
      · rw [hx] at hrun
        simp at hrun
      rw [hx] at hrun
      simp only [Option.some_bind] at hrun
      rcases hk : lastb.k.getLast? with _ | k0_glob
      · rw [hk] at hrun
        simp at hrun
      rw [hk] at hrun
      simp only [Option.some_bind] at hrun
      rcases hm : matrices surfhit with _ | mtx
      · rw [hm] at hrun
        simp at hrun
      rw [hm] at hrun
      simp only [Option.some_bind] at hrun
      have ih := para_loop_prefix matrices frames rest (i + 1)
        (rpath ++ [para_step mtx (frames i) x0_glob k0_glob]) path hrun idx
        (by
          rw [List.length_append]
          omega)
      rw [ih, List.get?_append hidx]

/-- Every bundle the loop appends at offset `j` is a `para_step` value
for hit `i + j`. -/
lemma para_loop_appended (matrices : XYUVTable K 6) (frames : ℕ → HitFrameData K N) :
    ∀ (hl : List (String × String × ℕ)) (i : ℕ)
      (rpath path : List (RayBundle K N)) (j : ℕ) (b : RayBundle K N),
      para_loop matrices frames i hl rpath = some path →
      path.get? (rpath.length + j) = some b →
      ∃ mtx x0_glob k0_glob, b = para_step mtx (frames (i + j)) x0_glob k0_glob
  | [], _, rpath, path, j, b, hrun, hb => by
      rw [← Option.some.inj hrun] at hb
      rw [List.get?_eq_none.mpr (by omega)] at hb
      exact absurd hb (by simp)
  | surfhit :: rest, i, rpath, path, j, b, hrun, hb => by
      rw [para_loop] at hrun
      rcases hlast : rpath.getLast? with _ | lastb
      · rw [hlast] at hrun
        simp at hrun
      rw [hlast] at hrun
      simp only [Option.some_bind] at hrun
      rcases hx : lastb.x.getLast? with _ | x0_glob
      · rw [hx] at hrun
        simp at hrun
      rw [hx] at hrun
      simp only [Option.some_bind] at hrun
      rcases hk : lastb.k.getLast? with _ | k0_glob
      · rw [hk] at hrun
        simp at hrun
      rw [hk] at hrun
      simp only [Option.some_bind] at hrun
      rcases hm : matrices surfhit with _ | mtx
      · rw [hm] at hrun
        simp at hrun
      rw [hm] at hrun
      simp only [Option.some_bind] at hrun
      rcases j with _ | j
      · refine ⟨mtx, x0_glob, k0_glob, ?_⟩
        have hpos := para_loop_prefix matrices frames rest (i + 1)
          (rpath ++ [para_step mtx (frames i) x0_glob k0_glob]) path hrun
          rpath.length (by simp)
        rw [Nat.add_zero] at hb
        rw [hb] at hpos
        rw [List.get?_append_right (le_refl rpath.length)] at hpos
        rw [Nat.sub_self] at hpos
        rw [Nat.add_zero]
        exact Option.some.inj hpos
      · have ih := para_loop_appended matrices frames rest (i + 1)
          (rpath ++ [para_step mtx (frames i) x0_glob k0_glob]) path j b hrun
          (by
            have hlen : (rpath ++ [para_step mtx (frames i) x0_glob k0_glob]).length + j
                = rpath.length + (j + 1) := by
              simp only [List.length_append, List.length_cons, List.length_nil]
              omega
            rw [hlen]
            exact hb)
        rw [show i + 1 + j = i + (j + 1) from by omega] at ih
        exact ih

/-- The fields of an appended bundle: the trailing recorded position
and direction are the re-embedded differences with the third row padded
to exactly zero, plus the pilot coordinates, pushed back to the global
frame; the recorded validity mask is all-true. -/
lemma para_step_fields (mtx : Matrix (Fin 6) (Fin 6) K) (fd : HitFrameData K N)
    (x0_glob k0_glob : Matrix (Fin 3) (Fin N) (K × K)) :
    ∃ dx1 dk1 : Matrix (Fin 2) (Fin N) (K × K),
      (para_step mtx fd x0_glob k0_glob).x.getLast?
          = some (fd.l2gP_end (addCol (padRow3 dx1) fd.px1)) ∧
      (para_step mtx fd x0_glob k0_glob).k.getLast?
          = some (fd.l2gD_end (addCol (padRow3 dk1) fd.pk1)) ∧
      (∀ jj : Fin N, padRow3 dx1 ⟨2, by omega⟩ jj = 0 ∧
        padRow3 dk1 ⟨2, by omega⟩ jj = 0) ∧
      (para_step mtx fd x0_glob k0_glob).valid = [fun _ => true] := by
  refine ⟨_, _, rfl, rfl, ?_, rfl⟩
  intro jj
  constructor <;> · rw [padRow3]
                    simp

end ParaSeqtraceLemmas

/-- C8: every bundle appended to the output ray path by
`para_seqtrace` records, as its new trailing state, the local
difference re-embedded into 3D with the longitudinal (third) component
of both the position difference and the direction difference exactly
zero before the pilot coordinates are added back, and carries an
all-true validity mask — no aperture or validity check filters any
appended bundle (stated at the model field `ℚ`). -/
theorem para_seqtrace_padding_and_mask {p N : ℕ} {O : Type}
    (seq : List (String × O)) (stages : ℕ → PilotStage ℚ 6 p)
    (frames : ℕ → HitFrameData ℚ N) (rb0 : RayBundle ℚ N)
    (path : List (RayBundle ℚ N)) (j : ℕ) (b : RayBundle ℚ N)
    (hrun : para_seqtrace seq stages frames rb0 = some path)
    (hb : path.get? (1 + j) = some b) :
    ∃ dx1 dk1 : Matrix (Fin 2) (Fin N) (ℚ × ℚ),
      b.x.getLast? = some ((frames j).l2gP_end (addCol (padRow3 dx1) (frames j).px1)) ∧
      b.k.getLast? = some ((frames j).l2gD_end (addCol (padRow3 dk1) (frames j).pk1)) ∧
      (∀ jj : Fin N, padRow3 dx1 ⟨2, by omega⟩ jj = 0 ∧
        padRow3 dk1 ⟨2, by omega⟩ jj = 0) ∧
      b.valid = [fun _ => true] := by
  obtain ⟨mtx, x0g, k0g, hbstep⟩ := para_loop_appended
    (calculateXYUV seq stages) frames (sequence_to_hitlist seq).1 0 [rb0] path j b
    hrun hb
  rw [Nat.zero_add] at hbstep
  obtain ⟨dx1, dk1, h1, h2, h3, h4⟩ := para_step_fields mtx (frames j) x0g k0g
  subst hbstep
  exact ⟨dx1, dk1, h1, h2, h3, h4⟩

theorem para_seqtrace_padding_and_mask_witness :
    ∃ (path : List (RayBundle ℚ 1)) (b : RayBundle ℚ 1),
      para_seqtrace seqW8 stagesW8 framesW8 rbW8 = some path ∧
      path.get? (1 + 0) = some b ∧
      (∃ dx1 dk1 : Matrix (Fin 2) (Fin 1) (ℚ × ℚ),
        b.x.getLast? =
          some ((framesW8 0).l2gP_end (addCol (padRow3 dx1) (framesW8 0).px1)) ∧
        b.k.getLast? =
          some ((framesW8 0).l2gD_end (addCol (padRow3 dk1) (framesW8 0).pk1)) ∧
        (∀ jj : Fin 1, padRow3 dx1 ⟨2, by omega⟩ jj = 0 ∧
          padRow3 dk1 ⟨2, by omega⟩ jj = 0) ∧
        b.valid = [fun _ => true]) := by
  have hhl : (sequence_to_hitlist seqW8).1 = [("a", "b", 1)] := by decide
  have hlookup : calculateXYUV seqW8 stagesW8 ("a", "b", 1)
      = some (hitTransfer (stagesW8 0)) := by
    show calculateXYUV_loop stagesW8 0 (sequence_to_hitlist seqW8).1
      (fun _ => none) ("a", "b", 1) = _
    rw [hhl]
    rw [calculateXYUV_loop, calculateXYUV_loop]
    rw [show (((("a", "b", 1) : String × String × ℕ)).2.1,
        (("a", "b", 1) : String × String × ℕ).1,
        (("a", "b", 1) : String × String × ℕ).2.2) =
      (("b", "a", 1) : String × String × ℕ) from rfl]
    rw [Function.update_noteq (by decide)]
    rw [show (((("a", "b", 1) : String × String × ℕ)).1,
        (("a", "b", 1) : String × String × ℕ).2.1,
        (("a", "b", 1) : String × String × ℕ).2.2) =
      (("a", "b", 1) : String × String × ℕ) from rfl]
    rw [Function.update_same]
  have hrun : para_seqtrace seqW8 stagesW8 framesW8 rbW8 =
      some [rbW8, para_step (hitTransfer (stagesW8 0)) (framesW8 0) 0 0] := by
    show para_loop (calculateXYUV seqW8 stagesW8) framesW8 0
      (sequence_to_hitlist seqW8).1 [rbW8] = _
    rw [hhl]
    rw [para_loop]
    rw [show ([rbW8] : List (RayBundle ℚ 1)).getLast? = some rbW8 from rfl]
    simp only [Option.some_bind]
    rw [show rbW8.x.getLast? = some 0 from rfl]
    simp only [Option.some_bind]
    rw [show rbW8.k.getLast? = some 0 from rfl]
    simp only [Option.some_bind]
    rw [hlookup]
    simp only [Option.some_bind]
    rw [para_loop]
    rfl
  refine ⟨_, _, hrun, rfl, ?_⟩
  exact para_seqtrace_padding_and_mask seqW8 stagesW8 framesW8 rbW8 _ 0 _ hrun rfl

end Pyrate
